import Mathlib

/-!
Verification model of the syzygy refinery type-graph core: the four-variant
type model, the repository (arena) of nodes, kind-checked downcast, and the
cycle-safe structural hash and structural equality operations.

The production sources for this component are absent from the repository
snapshot (only `syzygy/refinery/types/type_unittest.cc` survives), so the
definitions below are modelled from the specification, faithful to its data
model (§3), algorithms (§4.4–4.5) and error-handling rules (§7, §8).
C++ node identities (pointers) are modelled as natural-number identities in
a repository association list; cross references (a pointer's pointee, a
field's declared type) are identities, so arbitrary — including cyclic —
reference graphs are representable.
-/

namespace Refinery

/-- Modelled from the spec: the immutable discriminant of a type node
(`kind ∈ Basic, Bitfield, UserDefined, Pointer`, §3). -/
inductive TypeKind where
  | Basic
  | Bitfield
  | UserDefined
  | Pointer
deriving DecidableEq, Repr

/-- Modelled from the spec (§3, UserDefined): one field of a user-defined
aggregate: `name`, byte `offset`, flags `is_const`/`is_volatile`, and a
reference (an identity) to the field's declared type. -/
structure Field where
  name : String
  offset : Nat
  isConst : Bool
  isVolatile : Bool
  typeId : Nat
deriving DecidableEq, Repr

/-- Modelled from the spec (§3): a type node, one of the four variants.
Every variant carries `name` and `size`; variant-specific attributes follow
§3 (the C++ class is named `Type`; `Type` is reserved in Lean, so the node
type is called `TypeNode`). Cross references (`typeId` of a field, the
pointee of a pointer) are node identities resolved in a repository. -/
inductive TypeNode where
  | basic (name : String) (size : Nat)
  | bitfield (name : String) (size : Nat) (bitLength : Nat) (bitOffset : Nat)
  | userDefined (name : String) (size : Nat) (fields : List Field)
  | pointer (name : String) (size : Nat) (isConst : Bool) (isVolatile : Bool)
      (pointeeId : Nat)
deriving DecidableEq, Repr

/-- The `kind()` accessor (§4.1): the discriminant of a node. -/
def TypeNode.kind : TypeNode → TypeKind
  | .basic _ _ => .Basic
  | .bitfield _ _ _ _ => .Bitfield
  | .userDefined _ _ _ => .UserDefined
  | .pointer _ _ _ _ _ => .Pointer

/-- The `name()` accessor (§4.1). -/
def TypeNode.name : TypeNode → String
  | .basic n _ => n
  | .bitfield n _ _ _ => n
  | .userDefined n _ _ => n
  | .pointer n _ _ _ _ => n

/-- The `size()` accessor (§4.1). -/
def TypeNode.size : TypeNode → Nat
  | .basic _ s => s
  | .bitfield _ s _ _ => s
  | .userDefined _ s _ => s
  | .pointer _ s _ _ _ => s

/-- Modelled from the spec (§4.3): the repository (arena) owning all type
nodes of one analysis pass, as an association list from node identity to
node. Lookup is by identity. -/
abbrev Repo := List (Nat × TypeNode)

/-- The identities present in a repository. -/
def Repo.keys (repo : Repo) : List Nat := repo.map Prod.fst

/-- Identity lookup in the repository (§4.3). -/
def Repo.find (repo : Repo) (id : Nat) : Option TypeNode :=
  List.lookup id repo

/-- The identities a node references directly: a pointer's pointee and the
declared types of a UDT's fields (§3, Relationships). -/
def refIds : TypeNode → List Nat
  | .basic _ _ => []
  | .bitfield _ _ _ _ => []
  | .userDefined _ _ fields => fields.map Field.typeId
  | .pointer _ _ _ _ p => [p]

/-- Modelled from the spec (§4.2): the kind-checked downcast `CastTo`.
Given the polymorphic handle and a requested concrete kind it returns a
success/failure result; on success the yielded accessor is the same
underlying node, on failure (kind mismatch) nothing is produced (the
caller's output handle stays unset). It performs no structural
inspection. -/
def castTo (k : TypeKind) (t : TypeNode) : Option TypeNode :=
  if t.kind = k then some t else none

/-- Modelled from the spec: `bits_per_unit` of the bitfield invariant
`bit_offset + bit_length ≤ size * bits_per_unit` (§3); storage units are
bytes. -/
def bitsPerUnit : Nat := 8

/-- Modelled from the spec (§4.1, §7): the `BitfieldType` constructor.
Construction validates the bitfield bound eagerly and reports an
invalid-input error (here: `none`) at construction time; no node with a
violated invariant is ever produced. -/
def mkBitfieldType (name : String) (size bitLength bitOffset : Nat) :
    Option TypeNode :=
  if bitOffset + bitLength ≤ size * bitsPerUnit then
    some (.bitfield name size bitLength bitOffset)
  else
    none

/-! ### Structural hash (§4.4)

The spec fixes the structure of the hash — combine, in fixed order, `kind`,
`name`, `size`, then the kind-specific fields, recursing through references
under a call-scoped in-progress guard — but leaves the combining function
itself unspecified.  We model the combiner as the Cantor pairing function
`Nat.pair`, a valid (collision-free) combine; codes are built so that every
combined component is recoverable, which lets the sensitivity properties be
settled exactly. -/

/-- An injective code for a list of naturals (the combine fold). -/
def natListCode : List Nat → Nat
  | [] => 0
  | a :: l => Nat.pair a (natListCode l) + 1

/-- An injective code for a string: the fold of its character codes. -/
def strCode (s : String) : Nat :=
  natListCode (s.data.map Char.toNat)

/-- A code for a const/volatile flag pair. -/
def flagsCode (isConst isVolatile : Bool) : Nat :=
  (cond isConst 1 0) + 2 * (cond isVolatile 1 0)

/-- The numeric tag of a kind, the first hash component (§4.4). -/
def kindTag : TypeKind → Nat
  | .Basic => 0
  | .Bitfield => 1
  | .UserDefined => 2
  | .Pointer => 3

/-- The shallow signature of a node — `kind`, `name`, `size` only — the
contribution folded in when the hash's cycle guard stops recursion (§4.4),
and the first component of every full hash. -/
def headerCode (t : TypeNode) : Nat :=
  Nat.pair (kindTag t.kind) (Nat.pair (strCode t.name) t.size)

/-- The non-recursive part of one field's hash contribution: `name`,
`offset`, flags (§4.4, UserDefined); the recursive part (the field type's
hash) is supplied by the caller. -/
def fieldCode (f : Field) (typeHash : Nat) : Nat :=
  Nat.pair (strCode f.name) (Nat.pair f.offset
    (Nat.pair (flagsCode f.isConst f.isVolatile) typeHash))

/-- Modelled from the spec (§4.4): the structural hash computation.
`remaining` is the complement of the call-scoped in-progress set: it holds
the identities not yet on the current recursion path (initially all
repository keys); re-entering a node no longer in `remaining` folds in only
that node's shallow signature and stops.  `fuel` makes the recursion
structural; the top-level entry point supplies `remaining.length + 1` fuel,
and since every recursive step removes one identity from `remaining`, the
fuel is never exhausted. -/
def typeHashAux (repo : Repo) : Nat → List Nat → Nat → Nat
  | 0, _, _ => 0
  | fuel + 1, remaining, id =>
    match repo.find id with
    | none => 0
    | some t =>
      if id ∈ remaining then
        let rem := remaining.erase id
        Nat.pair (headerCode t)
          (match t with
           | .basic _ _ => 0
           | .bitfield _ _ bitLength bitOffset => Nat.pair bitLength bitOffset
           | .userDefined _ _ fields =>
             natListCode (fields.map
               (fun f => fieldCode f (typeHashAux repo fuel rem f.typeId)))
           | .pointer _ _ isConst isVolatile pointeeId =>
             Nat.pair (flagsCode isConst isVolatile)
               (typeHashAux repo fuel rem pointeeId))
      else
        headerCode t

/-- Modelled from the spec (§4.4): `TypeHash` — the structural hash of the
node with identity `id` in `repo`. -/
def TypeHash (repo : Repo) (id : Nat) : Nat :=
  typeHashAux repo (repo.length + 1) repo.keys id

/-- All pairs of identities drawn from two repositories — the universe of
the equality computation's pair guard. -/
def keyPairs (repo1 repo2 : Repo) : List (Nat × Nat) :=
  repo1.keys.flatMap (fun a => repo2.keys.map (fun b => (a, b)))

/-- Modelled from the spec (§4.5): the structural equality computation.
`remaining` is the complement of the call-scoped set of identity pairs in
progress on the current recursion path (initially all pairs of keys);
re-entering a pair no longer in `remaining` is treated as a tentative match
(assume-equal-on-cycle).  Two nodes match when kind, name and size agree
and the kind-specific fields match: Bitfield compares `bit_length` and
`bit_offset`; Pointer compares the flags and recursively the pointees;
UserDefined compares field count and, in order, per-field `name`, `offset`,
flags and recursively the referenced types.  `fuel` makes the recursion
structural; the top-level entry point supplies enough for the guard to
bound the recursion. -/
def typeIsEqualAux (repo1 repo2 : Repo) :
    Nat → List (Nat × Nat) → Nat → Nat → Bool
  | 0, _, _, _ => false
  | fuel + 1, remaining, id1, id2 =>
    match repo1.find id1, repo2.find id2 with
    | some t1, some t2 =>
      if (id1, id2) ∈ remaining then
        let rem := remaining.erase (id1, id2)
        match t1, t2 with
        | .basic n1 s1, .basic n2 s2 => n1 == n2 && s1 == s2
        | .bitfield n1 s1 bl1 bo1, .bitfield n2 s2 bl2 bo2 =>
          n1 == n2 && s1 == s2 && bl1 == bl2 && bo1 == bo2
        | .userDefined n1 s1 fs1, .userDefined n2 s2 fs2 =>
          n1 == n2 && s1 == s2 && fs1.length == fs2.length &&
          (fs1.zip fs2).all (fun p =>
            p.1.name == p.2.name && p.1.offset == p.2.offset &&
            p.1.isConst == p.2.isConst && p.1.isVolatile == p.2.isVolatile &&
            typeIsEqualAux repo1 repo2 fuel rem p.1.typeId p.2.typeId)
        | .pointer n1 s1 c1 v1 p1, .pointer n2 s2 c2 v2 p2 =>
          n1 == n2 && s1 == s2 && c1 == c2 && v1 == v2 &&
          typeIsEqualAux repo1 repo2 fuel rem p1 p2
        | _, _ => false
      else
        true
    | _, _ => false

/-- Modelled from the spec (§4.5): `TypeIsEqual` — structural equality of
the node `id1` of `repo1` and the node `id2` of `repo2` (possibly from
different repositories). -/
def TypeIsEqual (repo1 repo2 : Repo) (id1 id2 : Nat) : Bool :=
  typeIsEqualAux repo1 repo2 (repo1.length * repo2.length + 1)
    (keyPairs repo1 repo2) id1 id2

/-- A repository is ranked (equivalently: its reference graph is acyclic)
when some rank function strictly decreases along every reference edge. -/
def Ranked (repo : Repo) (rank : Nat → Nat) : Prop :=
  ∀ p ∈ repo, ∀ c ∈ refIds p.2, rank c < rank p.1

/-- The spec's well-formedness invariant on inputs (§3, Invariants):
every referenced sub-type already exists in the repository. -/
def WellFormed (repo : Repo) : Prop :=
  ∀ p ∈ repo, ∀ c ∈ refIds p.2, c ∈ repo.keys

/-- The `bit_length()` accessor of a bitfield node (§4.1). -/
def TypeNode.bitLength : TypeNode → Nat
  | .bitfield _ _ bl _ => bl
  | _ => 0

/-- The `bit_offset()` accessor of a bitfield node (§4.1). -/
def TypeNode.bitOffset : TypeNode → Nat
  | .bitfield _ _ _ bo => bo
  | _ => 0

/-- Equality of two sub-nodes evaluated while the pair `(id1, id2)` is on
the recursion path (in progress): the recursive comparison a top-level
`TypeIsEqual repo1 repo2 id1 id2` performs on the referenced sub-types. -/
def subEqual (repo1 repo2 : Repo) (id1 id2 c1 c2 : Nat) : Bool :=
  typeIsEqualAux repo1 repo2 (repo1.length * repo2.length)
    ((keyPairs repo1 repo2).erase (id1, id2)) c1 c2

/-- The specification's wording of the kind-specific comparison (§4.5),
parameterised by the relation `sub` used for recursively compared
referenced types: Bitfield requires equal `bit_length` and `bit_offset`;
Pointer requires equal flags and `sub`-related pointees; UserDefined
requires equal field count and, pairing the fields in order, per-field
equal name, offset and flags and `sub`-related referenced types; nodes of
different kinds never match. -/
def specKindFieldsMatch (sub : Nat → Nat → Prop) : TypeNode → TypeNode → Prop
  | .basic _ _, .basic _ _ => True
  | .bitfield _ _ bl1 bo1, .bitfield _ _ bl2 bo2 => bl1 = bl2 ∧ bo1 = bo2
  | .userDefined _ _ fs1, .userDefined _ _ fs2 =>
    fs1.length = fs2.length ∧
    ∀ p ∈ fs1.zip fs2, p.1.name = p.2.name ∧ p.1.offset = p.2.offset ∧
      p.1.isConst = p.2.isConst ∧ p.1.isVolatile = p.2.isVolatile ∧
      sub p.1.typeId p.2.typeId
  | .pointer _ _ c1 v1 p1, .pointer _ _ c2 v2 p2 =>
    c1 = c2 ∧ v1 = v2 ∧ sub p1 p2
  | _, _ => False

/-- The kind-specific part of a node's hash (§4.4), with `h` the hash
computed for referenced identities: nothing extra for Basic; `bit_length`
and `bit_offset` for Bitfield; the in-order fold of the fields' name,
offset, flags and referenced-type hash for UserDefined; the flags and the
pointee's hash for Pointer.  `typeHashAux` computes exactly this with `h`
its own recursive call. -/
def hashKindCode (h : Nat → Nat) : TypeNode → Nat
  | .basic _ _ => 0
  | .bitfield _ _ bitLength bitOffset => Nat.pair bitLength bitOffset
  | .userDefined _ _ fields =>
    natListCode (fields.map (fun f => fieldCode f (h f.typeId)))
  | .pointer _ _ isConst isVolatile pointeeId =>
    Nat.pair (flagsCode isConst isVolatile) (h pointeeId)

/-- The kind-and-field comparison of two nodes (§4.5), with `e` the
comparison used for referenced identities: kind, name and size must agree,
then Bitfield compares `bit_length`/`bit_offset`, UserDefined compares
field count and, in order, per-field name, offset, flags and referenced
types, Pointer compares flags and pointees.  `typeIsEqualAux` computes
exactly this with `e` its own recursive call. -/
def eqKindFields (e : Nat → Nat → Bool) : TypeNode → TypeNode → Bool
  | .basic n1 s1, .basic n2 s2 => n1 == n2 && s1 == s2
  | .bitfield n1 s1 bl1 bo1, .bitfield n2 s2 bl2 bo2 =>
    n1 == n2 && s1 == s2 && bl1 == bl2 && bo1 == bo2
  | .userDefined n1 s1 fs1, .userDefined n2 s2 fs2 =>
    n1 == n2 && s1 == s2 && fs1.length == fs2.length &&
    (fs1.zip fs2).all (fun p =>
      p.1.name == p.2.name && p.1.offset == p.2.offset &&
      p.1.isConst == p.2.isConst && p.1.isVolatile == p.2.isVolatile &&
      e p.1.typeId p.2.typeId)
  | .pointer n1 s1 c1 v1 p1, .pointer n2 s2 c2 v2 p2 =>
    n1 == n2 && s1 == s2 && c1 == c2 && v1 == v2 && e p1 p2
  | _, _ => false

/-- Renaming of the identity a field references, for expressing that
results are independent of incidental node identities. -/
def renameField (f : Nat → Nat) (fd : Field) : Field :=
  { fd with typeId := f fd.typeId }

/-- Renaming of every identity a node references. -/
def renameNode (f : Nat → Nat) : TypeNode → TypeNode
  | .basic n s => .basic n s
  | .bitfield n s bl bo => .bitfield n s bl bo
  | .userDefined n s fields => .userDefined n s (fields.map (renameField f))
  | .pointer n s c v p => .pointer n s c v (f p)

/-- Renaming of every node identity of a repository (the model of changing
the incidental identities — memory addresses — of all nodes at once). -/
def renameRepo (f : Nat → Nat) (repo : Repo) : Repo :=
  repo.map (fun p => (f p.1, renameNode f p.2))

/-! ### Combining-code injectivity -/

theorem natListCode_injective : ∀ {l1 l2 : List Nat},
    natListCode l1 = natListCode l2 → l1 = l2 := by
  intro l1
  induction l1 with
  | nil =>
    intro l2 h
    cases l2 with
    | nil => rfl
    | cons b m => simp [natListCode] at h
  | cons a l ih =>
    intro l2 h
    cases l2 with
    | nil => simp [natListCode] at h
    | cons b m =>
      simp only [natListCode, Nat.add_right_cancel_iff, Nat.pair_eq_pair] at h
      obtain ⟨rfl, h2⟩ := h
      rw [ih h2]

theorem charToNat_injective : Function.Injective Char.toNat := by
  intro c d h
  have := Char.ofNat_toNat c
  rw [h, Char.ofNat_toNat] at this
  exact this.symm

theorem strCode_injective : ∀ {s1 s2 : String},
    strCode s1 = strCode s2 → s1 = s2 := by
  intro ⟨d1⟩ ⟨d2⟩ h
  have hmap := natListCode_injective h
  have hdata : d1 = d2 := (List.map_injective_iff.mpr charToNat_injective) hmap
  exact congrArg String.mk hdata

theorem flagsCode_injective : ∀ {a b c d : Bool},
    flagsCode a b = flagsCode c d → a = c ∧ b = d := by decide

theorem kindTag_injective : ∀ {k1 k2 : TypeKind},
    kindTag k1 = kindTag k2 → k1 = k2 := by
  intro k1 k2 h
  cases k1 <;> cases k2 <;> simp_all [kindTag]

theorem headerCode_eq_iff {t1 t2 : TypeNode} :
    headerCode t1 = headerCode t2 ↔
      t1.kind = t2.kind ∧ t1.name = t2.name ∧ t1.size = t2.size := by
  constructor
  · intro h
    simp only [headerCode, Nat.pair_eq_pair] at h
    exact ⟨kindTag_injective h.1, strCode_injective h.2.1, h.2.2⟩
  · intro ⟨hk, hn, hs⟩
    simp [headerCode, hk, hn, hs]

theorem fieldCode_eq_iff {f1 f2 : Field} {h1 h2 : Nat} :
    fieldCode f1 h1 = fieldCode f2 h2 ↔
      f1.name = f2.name ∧ f1.offset = f2.offset ∧ f1.isConst = f2.isConst ∧
        f1.isVolatile = f2.isVolatile ∧ h1 = h2 := by
  constructor
  · intro h
    simp only [fieldCode, Nat.pair_eq_pair] at h
    obtain ⟨ha, hb, hc, hd⟩ := h
    obtain ⟨hcc, hvv⟩ := flagsCode_injective hc
    exact ⟨strCode_injective ha, hb, hcc, hvv, hd⟩
  · intro ⟨ha, hb, hc, hd, he⟩
    simp [fieldCode, ha, hb, hc, hd, he]

/-! ### Repository lookup and key-pair facts -/

theorem find_some_mem {repo : Repo} {id : Nat} {t : TypeNode}
    (h : repo.find id = some t) : (id, t) ∈ repo := by
  induction repo with
  | nil => simp [Repo.find] at h
  | cons p l ih =>
    obtain ⟨k, v⟩ := p
    rw [Repo.find, List.lookup_cons] at h
    by_cases hk : id = k
    · subst hk
      simp at h
      simp [h]
    · have : (id == k) = false := beq_false_of_ne hk
      rw [this] at h
      exact List.mem_cons_of_mem _ (ih h)

theorem find_some_key_mem {repo : Repo} {id : Nat} {t : TypeNode}
    (h : repo.find id = some t) : id ∈ repo.keys := by
  have := find_some_mem h
  exact List.mem_map.mpr ⟨(id, t), this, rfl⟩

theorem find_isSome_of_key_mem {repo : Repo} {id : Nat}
    (h : id ∈ repo.keys) : ∃ t, repo.find id = some t := by
  induction repo with
  | nil => simp [Repo.keys] at h
  | cons p l ih =>
    obtain ⟨k, v⟩ := p
    rw [Repo.keys] at h
    simp only [List.map_cons, List.mem_cons] at h
    by_cases hk : id = k
    · subst hk
      exact ⟨v, by simp [Repo.find, List.lookup_cons]⟩
    · have hmem : id ∈ l.map Prod.fst := by
        rcases h with h | h
        · exact absurd h hk
        · exact h
      obtain ⟨t, ht⟩ := ih hmem
      refine ⟨t, ?_⟩
      rw [Repo.find, List.lookup_cons]
      have : (id == k) = false := beq_false_of_ne hk
      rw [this]
      exact ht

theorem find_none_of_key_not_mem {repo : Repo} {id : Nat}
    (h : id ∉ repo.keys) : repo.find id = none := by
  cases hf : repo.find id with
  | none => rfl
  | some t => exact absurd (find_some_key_mem hf) h

theorem find_eq_some_of_mem_nodup {repo : Repo} {id : Nat} {t : TypeNode}
    (hnd : repo.keys.Nodup) (h : (id, t) ∈ repo) : repo.find id = some t := by
  induction repo with
  | nil => simp at h
  | cons p l ih =>
    obtain ⟨k, v⟩ := p
    rw [Repo.keys, List.map_cons, List.nodup_cons] at hnd
    rw [List.mem_cons] at h
    rcases h with h | h
    · simp only [Prod.mk.injEq] at h
      obtain ⟨rfl, rfl⟩ := h
      simp [Repo.find, List.lookup_cons]
    · have hk : id ≠ k := by
        intro he
        subst he
        exact hnd.1 (List.mem_map.mpr ⟨(id, t), h, rfl⟩)
      rw [Repo.find, List.lookup_cons]
      have : (id == k) = false := beq_false_of_ne hk
      rw [this]
      exact ih hnd.2 h

theorem mem_keyPairs {repo1 repo2 : Repo} {a b : Nat} :
    (a, b) ∈ keyPairs repo1 repo2 ↔ a ∈ repo1.keys ∧ b ∈ repo2.keys := by
  simp [keyPairs, List.mem_flatMap, List.mem_map]

theorem length_keyPairs (repo1 repo2 : Repo) :
    (keyPairs repo1 repo2).length = repo1.length * repo2.length := by
  unfold keyPairs
  induction repo1 with
  | nil => simp [Repo.keys]
  | cons p l ih =>
    simp only [Repo.keys, List.map_cons, List.flatMap_cons, List.length_append,
      List.length_map] at *
    rw [ih]
    simp [Repo.keys, Nat.succ_mul, Nat.add_comm]

/-! ### Unfolding equations of the two computations -/

theorem typeHashAux_none {repo : Repo} {fuel : Nat} {rem : List Nat} {id : Nat}
    (hfind : repo.find id = none) :
    typeHashAux repo (fuel + 1) rem id = 0 := by
  simp only [typeHashAux, hfind]

theorem typeHashAux_shallow {repo : Repo} {fuel : Nat} {rem : List Nat}
    {id : Nat} {t : TypeNode} (hfind : repo.find id = some t)
    (hmem : id ∉ rem) :
    typeHashAux repo (fuel + 1) rem id = headerCode t := by
  simp only [typeHashAux, hfind, if_neg hmem]

theorem typeHashAux_full {repo : Repo} {fuel : Nat} {rem : List Nat}
    {id : Nat} {t : TypeNode} (hfind : repo.find id = some t)
    (hmem : id ∈ rem) :
    typeHashAux repo (fuel + 1) rem id =
      Nat.pair (headerCode t)
        (hashKindCode (typeHashAux repo fuel (rem.erase id)) t) := by
  simp only [typeHashAux, hfind, if_pos hmem]
  cases t <;> rfl

theorem typeIsEqualAux_none_left {repo1 repo2 : Repo} {fuel : Nat}
    {rem : List (Nat × Nat)} {id1 id2 : Nat}
    (hfind : repo1.find id1 = none) :
    typeIsEqualAux repo1 repo2 (fuel + 1) rem id1 id2 = false := by
  simp only [typeIsEqualAux, hfind]

theorem typeIsEqualAux_none_right {repo1 repo2 : Repo} {fuel : Nat}
    {rem : List (Nat × Nat)} {id1 id2 : Nat}
    (hfind : repo2.find id2 = none) :
    typeIsEqualAux repo1 repo2 (fuel + 1) rem id1 id2 = false := by
  simp only [typeIsEqualAux, hfind]
  cases repo1.find id1 <;> rfl

theorem typeIsEqualAux_assumed {repo1 repo2 : Repo} {fuel : Nat}
    {rem : List (Nat × Nat)} {id1 id2 : Nat} {t1 t2 : TypeNode}
    (hfind1 : repo1.find id1 = some t1) (hfind2 : repo2.find id2 = some t2)
    (hmem : (id1, id2) ∉ rem) :
    typeIsEqualAux repo1 repo2 (fuel + 1) rem id1 id2 = true := by
  simp only [typeIsEqualAux, hfind1, hfind2, if_neg hmem]

theorem typeIsEqualAux_full {repo1 repo2 : Repo} {fuel : Nat}
    {rem : List (Nat × Nat)} {id1 id2 : Nat} {t1 t2 : TypeNode}
    (hfind1 : repo1.find id1 = some t1) (hfind2 : repo2.find id2 = some t2)
    (hmem : (id1, id2) ∈ rem) :
    typeIsEqualAux repo1 repo2 (fuel + 1) rem id1 id2 =
      eqKindFields
        (typeIsEqualAux repo1 repo2 fuel (rem.erase (id1, id2))) t1 t2 := by
  simp only [typeIsEqualAux, hfind1, hfind2, if_pos hmem]
  cases t1 <;> cases t2 <;> rfl

/-! ### Reflexivity and symmetry of structural equality -/

theorem zip_self_eq_map {α : Type} (l : List α) :
    l.zip l = l.map (fun a => (a, a)) := by
  induction l with
  | nil => rfl
  | cons a l ih => simp [List.zip_cons_cons, ih]

theorem eqAux_diag {repo : Repo} (hwf : WellFormed repo) :
    ∀ fuel (rem : List (Nat × Nat)) id1 id2 t,
      repo.find id1 = some t → repo.find id2 = some t →
      rem.length < fuel →
      typeIsEqualAux repo repo fuel rem id1 id2 = true := by
  intro fuel
  induction fuel with
  | zero => intro rem _ _ _ _ _ h; omega
  | succ fuel ih =>
    intro rem id1 id2 t hfind1 hfind2 hlen
    by_cases hmem : (id1, id2) ∈ rem
    · rw [typeIsEqualAux_full hfind1 hfind2 hmem]
      have hlen' : (rem.erase (id1, id2)).length < fuel := by
        rw [List.length_erase_of_mem hmem]
        have : 0 < rem.length := List.length_pos_of_mem hmem
        omega
      have hchild : ∀ c ∈ refIds t,
          typeIsEqualAux repo repo fuel (rem.erase (id1, id2)) c c = true := by
        intro c hc
        have hckey : c ∈ repo.keys := hwf (id1, t) (find_some_mem hfind1) c hc
        obtain ⟨tc, htc⟩ := find_isSome_of_key_mem hckey
        exact ih _ c c tc htc htc hlen'
      cases t with
      | basic n s => simp [eqKindFields]
      | bitfield n s bl bo => simp [eqKindFields]
      | userDefined n s fs =>
        simp only [eqKindFields, Bool.and_eq_true, beq_self_eq_true,
          List.all_eq_true, true_and]
        intro p hp
        rw [zip_self_eq_map] at hp
        obtain ⟨f, hf, rfl⟩ := List.mem_map.mp hp
        have := hchild f.typeId (List.mem_map.mpr ⟨f, hf, rfl⟩)
        simp [this]
      | pointer n s c v p =>
        simp only [eqKindFields, Bool.and_eq_true, beq_self_eq_true, true_and]
        exact hchild p (by simp [refIds])
    · exact typeIsEqualAux_assumed hfind1 hfind2 hmem



theorem mem_map_swap {α β : Type} {rem : List (α × β)} {a : α} {b : β} :
    (b, a) ∈ rem.map Prod.swap ↔ (a, b) ∈ rem := by
  constructor
  · intro h
    obtain ⟨⟨x, y⟩, hxy, hxye⟩ := List.mem_map.mp h
    obtain ⟨rfl, rfl⟩ : y = b ∧ x = a := by
      simpa [Prod.swap, Prod.ext_iff, and_comm] using hxye
    exact hxy
  · intro h
    exact List.mem_map.mpr ⟨(a, b), h, rfl⟩

theorem erase_map_swap (rem : List (Nat × Nat)) (a b : Nat) :
    (rem.map Prod.swap).erase (b, a) = (rem.erase (a, b)).map Prod.swap := by
  induction rem with
  | nil => rfl
  | cons p l ih =>
    obtain ⟨x, y⟩ := p
    by_cases hxy : x = a ∧ y = b
    · obtain ⟨rfl, rfl⟩ := hxy
      simp [List.erase_cons]
    · have h1 : ((x, y) == (a, b)) = false :=
        beq_eq_false_iff_ne.mpr (by simp only [ne_eq, Prod.mk.injEq]; tauto)
      have h2 : ((y, x) == (b, a)) = false :=
        beq_eq_false_iff_ne.mpr (by simp only [ne_eq, Prod.mk.injEq]; tauto)
      simp only [List.map_cons, Prod.swap_prod_mk, List.erase_cons, h1, h2,
        Bool.false_eq_true, if_false, ih]

theorem eqAux_swap_mp {repo1 repo2 : Repo} :
    ∀ fuel (rem : List (Nat × Nat)) id1 id2,
      typeIsEqualAux repo1 repo2 fuel rem id1 id2 = true →
      typeIsEqualAux repo2 repo1 fuel (rem.map Prod.swap) id2 id1 = true := by
  intro fuel
  induction fuel with
  | zero => intro rem id1 id2 h; simp [typeIsEqualAux] at h
  | succ fuel ih =>
    intro rem id1 id2 h
    cases hfind1 : repo1.find id1 with
    | none => rw [typeIsEqualAux_none_left hfind1] at h; exact absurd h (by simp)
    | some t1 =>
    cases hfind2 : repo2.find id2 with
    | none => rw [typeIsEqualAux_none_right hfind2] at h; exact absurd h (by simp)
    | some t2 =>
    by_cases hmem : (id1, id2) ∈ rem
    · rw [typeIsEqualAux_full hfind1 hfind2 hmem] at h
      rw [typeIsEqualAux_full hfind2 hfind1 (mem_map_swap.mpr hmem)]
      rw [erase_map_swap]
      cases t1 <;> cases t2 <;>
        simp only [eqKindFields, Bool.and_eq_true, beq_iff_eq,
          List.all_eq_true, Bool.false_eq_true] at h ⊢
      · exact ⟨h.1.symm, h.2.symm⟩
      · obtain ⟨⟨⟨h1, h2⟩, h3⟩, h4⟩ := h
        exact ⟨⟨⟨h1.symm, h2.symm⟩, h3.symm⟩, h4.symm⟩
      · obtain ⟨⟨⟨h1, h2⟩, h3⟩, h4⟩ := h
        refine ⟨⟨⟨h1.symm, h2.symm⟩, by simpa using h3.symm⟩, ?_⟩
        intro p hp
        rw [← List.zip_swap] at hp
        obtain ⟨⟨a, b⟩, hab, rfl⟩ := List.mem_map.mp hp
        obtain ⟨⟨⟨⟨hn, ho⟩, hc⟩, hv⟩, he⟩ := h4 (a, b) hab
        exact ⟨⟨⟨⟨hn.symm, ho.symm⟩, hc.symm⟩, hv.symm⟩, ih _ _ _ he⟩
      · obtain ⟨⟨⟨⟨h1, h2⟩, h3⟩, h4⟩, h5⟩ := h
        exact ⟨⟨⟨⟨h1.symm, h2.symm⟩, h3.symm⟩, h4.symm⟩, ih _ _ _ h5⟩
    · exact typeIsEqualAux_assumed hfind2 hfind1 (by
        rw [mem_map_swap]; exact hmem)

/-! ### The cycle guard is irrelevant on acyclic (ranked) repositories -/

theorem list_all_congr {α : Type} {l : List α} {p q : α → Bool}
    (h : ∀ x ∈ l, p x = q x) : l.all p = l.all q := by
  induction l with
  | nil => rfl
  | cons a l ih =>
    simp only [List.all_cons, h a (List.mem_cons_self a l)]
    rw [ih (fun x hx => h x (List.mem_cons_of_mem a hx))]

theorem hashAux_guard_irrel {repo : Repo} {rank : Nat → Nat}
    (hrk : Ranked repo rank) :
    ∀ n id, rank id < n → ∀ fuel1 rem1 fuel2 rem2,
      rem1.length < fuel1 → rem2.length < fuel2 →
      (∀ j ∈ repo.keys, rank j ≤ rank id → j ∈ rem1) →
      (∀ j ∈ repo.keys, rank j ≤ rank id → j ∈ rem2) →
      typeHashAux repo fuel1 rem1 id = typeHashAux repo fuel2 rem2 id := by
  intro n
  induction n with
  | zero => intro id h; omega
  | succ n ih =>
    intro id hn fuel1 rem1 fuel2 rem2 hl1 hl2 hr1 hr2
    cases fuel1 with
    | zero => omega
    | succ fuel1 =>
    cases fuel2 with
    | zero => omega
    | succ fuel2 =>
    cases hfind : repo.find id with
    | none => rw [typeHashAux_none hfind, typeHashAux_none hfind]
    | some t =>
    have hkey := find_some_key_mem hfind
    have hm1 : id ∈ rem1 := hr1 id hkey (Nat.le_refl _)
    have hm2 : id ∈ rem2 := hr2 id hkey (Nat.le_refl _)
    rw [typeHashAux_full hfind hm1, typeHashAux_full hfind hm2]
    have hchild : ∀ c ∈ refIds t,
        typeHashAux repo fuel1 (rem1.erase id) c =
          typeHashAux repo fuel2 (rem2.erase id) c := by
      intro c hc
      have hcr : rank c < rank id := hrk (id, t) (find_some_mem hfind) c hc
      refine ih c (by omega) _ _ _ _ ?_ ?_ ?_ ?_
      · rw [List.length_erase_of_mem hm1]
        have := List.length_pos_of_mem hm1
        omega
      · rw [List.length_erase_of_mem hm2]
        have := List.length_pos_of_mem hm2
        omega
      · intro j hj hjr
        have hne : j ≠ id := by intro he; rw [he] at hjr; omega
        exact (List.mem_erase_of_ne hne).mpr (hr1 j hj (by omega))
      · intro j hj hjr
        have hne : j ≠ id := by intro he; rw [he] at hjr; omega
        exact (List.mem_erase_of_ne hne).mpr (hr2 j hj (by omega))
    congr 1
    cases t with
    | basic n s => rfl
    | bitfield n s bl bo => rfl
    | userDefined n s fs =>
      simp only [hashKindCode]
      congr 1
      apply List.map_congr_left
      intro f hf
      rw [hchild f.typeId (List.mem_map.mpr ⟨f, hf, rfl⟩)]
    | pointer n s c v p =>
      simp only [hashKindCode]
      rw [hchild p (by simp [refIds])]

theorem eqAux_guard_irrel {repo1 repo2 : Repo} {rank1 : Nat → Nat}
    (hrk : Ranked repo1 rank1) :
    ∀ n id1, rank1 id1 < n → ∀ id2 fuel1 rem1 fuel2 rem2,
      rem1.length < fuel1 → rem2.length < fuel2 →
      (∀ j1 j2, j1 ∈ repo1.keys → j2 ∈ repo2.keys →
        rank1 j1 ≤ rank1 id1 → (j1, j2) ∈ rem1) →
      (∀ j1 j2, j1 ∈ repo1.keys → j2 ∈ repo2.keys →
        rank1 j1 ≤ rank1 id1 → (j1, j2) ∈ rem2) →
      typeIsEqualAux repo1 repo2 fuel1 rem1 id1 id2 =
        typeIsEqualAux repo1 repo2 fuel2 rem2 id1 id2 := by
  intro n
  induction n with
  | zero => intro id1 h; omega
  | succ n ih =>
    intro id1 hn id2 fuel1 rem1 fuel2 rem2 hl1 hl2 hr1 hr2
    cases fuel1 with
    | zero => omega
    | succ fuel1 =>
    cases fuel2 with
    | zero => omega
    | succ fuel2 =>
    cases hfind1 : repo1.find id1 with
    | none =>
      rw [typeIsEqualAux_none_left hfind1, typeIsEqualAux_none_left hfind1]
    | some t1 =>
    cases hfind2 : repo2.find id2 with
    | none =>
      rw [typeIsEqualAux_none_right hfind2, typeIsEqualAux_none_right hfind2]
    | some t2 =>
    have hkey1 := find_some_key_mem hfind1
    have hkey2 := find_some_key_mem hfind2
    have hm1 : (id1, id2) ∈ rem1 := hr1 id1 id2 hkey1 hkey2 (Nat.le_refl _)
    have hm2 : (id1, id2) ∈ rem2 := hr2 id1 id2 hkey1 hkey2 (Nat.le_refl _)
    rw [typeIsEqualAux_full hfind1 hfind2 hm1,
      typeIsEqualAux_full hfind1 hfind2 hm2]
    have hchild : ∀ c1 ∈ refIds t1, ∀ c2,
        typeIsEqualAux repo1 repo2 fuel1 (rem1.erase (id1, id2)) c1 c2 =
          typeIsEqualAux repo1 repo2 fuel2 (rem2.erase (id1, id2)) c1 c2 := by
      intro c1 hc1 c2
      have hcr : rank1 c1 < rank1 id1 := hrk (id1, t1) (find_some_mem hfind1) c1 hc1
      refine ih c1 (by omega) c2 _ _ _ _ ?_ ?_ ?_ ?_
      · rw [List.length_erase_of_mem hm1]
        have := List.length_pos_of_mem hm1
        omega
      · rw [List.length_erase_of_mem hm2]
        have := List.length_pos_of_mem hm2
        omega
      · intro j1 j2 hj1 hj2 hjr
        have hne : (j1, j2) ≠ (id1, id2) := by
          intro he
          rw [Prod.mk.injEq] at he
          rw [he.1] at hjr
          omega
        exact (List.mem_erase_of_ne hne).mpr (hr1 j1 j2 hj1 hj2 (by omega))
      · intro j1 j2 hj1 hj2 hjr
        have hne : (j1, j2) ≠ (id1, id2) := by
          intro he
          rw [Prod.mk.injEq] at he
          rw [he.1] at hjr
          omega
        exact (List.mem_erase_of_ne hne).mpr (hr2 j1 j2 hj1 hj2 (by omega))
    cases t1 <;> cases t2 <;> simp only [eqKindFields]
    case userDefined.userDefined n1 s1 fs1 n2 s2 fs2 =>
      congr 1
      apply list_all_congr
      intro x hx
      have hx1 : x.1 ∈ fs1 := (List.of_mem_zip hx).1
      rw [hchild x.1.typeId (List.mem_map.mpr ⟨x.1, hx1, rfl⟩) x.2.typeId]
    case pointer.pointer n1 s1 c1 v1 p1 n2 s2 c2 v2 p2 =>
      rw [hchild p1 (by simp [refIds]) p2]

/-! ### On ranked repositories, structurally equal nodes hash equal -/

theorem hash_eq_of_eqAux {repo1 repo2 : Repo} {rank1 rank2 : Nat → Nat}
    (hrk1 : Ranked repo1 rank1) (hrk2 : Ranked repo2 rank2) :
    ∀ n id1, rank1 id1 < n →
    ∀ id2 fuelE remE fuelH1 remH1 fuelH2 remH2,
      remE.length < fuelE → remH1.length < fuelH1 → remH2.length < fuelH2 →
      (∀ j1 j2, j1 ∈ repo1.keys → j2 ∈ repo2.keys →
        rank1 j1 ≤ rank1 id1 → (j1, j2) ∈ remE) →
      (∀ j ∈ repo1.keys, rank1 j ≤ rank1 id1 → j ∈ remH1) →
      (∀ j ∈ repo2.keys, rank2 j ≤ rank2 id2 → j ∈ remH2) →
      typeIsEqualAux repo1 repo2 fuelE remE id1 id2 = true →
      typeHashAux repo1 fuelH1 remH1 id1 = typeHashAux repo2 fuelH2 remH2 id2 := by
  intro n
  induction n with
  | zero => intro id1 h; omega
  | succ n ih =>
    intro id1 hn id2 fuelE remE fuelH1 remH1 fuelH2 remH2
    intro hlE hlH1 hlH2 hrE hrH1 hrH2 heq
    cases fuelE with
    | zero => omega
    | succ fuelE =>
    cases fuelH1 with
    | zero => omega
    | succ fuelH1 =>
    cases fuelH2 with
    | zero => omega
    | succ fuelH2 =>
    cases hfind1 : repo1.find id1 with
    | none =>
      rw [typeIsEqualAux_none_left hfind1] at heq
      exact absurd heq (by simp)
    | some t1 =>
    cases hfind2 : repo2.find id2 with
    | none =>
      rw [typeIsEqualAux_none_right hfind2] at heq
      exact absurd heq (by simp)
    | some t2 =>
    have hkey1 := find_some_key_mem hfind1
    have hkey2 := find_some_key_mem hfind2
    have hmE : (id1, id2) ∈ remE := hrE id1 id2 hkey1 hkey2 (Nat.le_refl _)
    have hmH1 : id1 ∈ remH1 := hrH1 id1 hkey1 (Nat.le_refl _)
    have hmH2 : id2 ∈ remH2 := hrH2 id2 hkey2 (Nat.le_refl _)
    rw [typeIsEqualAux_full hfind1 hfind2 hmE] at heq
    rw [typeHashAux_full hfind1 hmH1, typeHashAux_full hfind2 hmH2]
    have hlE' : (remE.erase (id1, id2)).length < fuelE := by
      rw [List.length_erase_of_mem hmE]
      have := List.length_pos_of_mem hmE
      omega
    have hlH1' : (remH1.erase id1).length < fuelH1 := by
      rw [List.length_erase_of_mem hmH1]
      have := List.length_pos_of_mem hmH1
      omega
    have hlH2' : (remH2.erase id2).length < fuelH2 := by
      rw [List.length_erase_of_mem hmH2]
      have := List.length_pos_of_mem hmH2
      omega
    have hrE' : ∀ c1, rank1 c1 < rank1 id1 → ∀ j1 j2, j1 ∈ repo1.keys →
        j2 ∈ repo2.keys → rank1 j1 ≤ rank1 c1 →
        (j1, j2) ∈ remE.erase (id1, id2) := by
      intro c1 hc1 j1 j2 hj1 hj2 hjr
      have hne : (j1, j2) ≠ (id1, id2) := by
        intro he
        rw [Prod.mk.injEq] at he
        rw [he.1] at hjr
        omega
      exact (List.mem_erase_of_ne hne).mpr (hrE j1 j2 hj1 hj2 (by omega))
    have hrH1' : ∀ c1, rank1 c1 < rank1 id1 → ∀ j ∈ repo1.keys,
        rank1 j ≤ rank1 c1 → j ∈ remH1.erase id1 := by
      intro c1 hc1 j hj hjr
      have hne : j ≠ id1 := by intro he; rw [he] at hjr; omega
      exact (List.mem_erase_of_ne hne).mpr (hrH1 j hj (by omega))
    have hrH2' : ∀ c2, rank2 c2 < rank2 id2 → ∀ j ∈ repo2.keys,
        rank2 j ≤ rank2 c2 → j ∈ remH2.erase id2 := by
      intro c2 hc2 j hj hjr
      have hne : j ≠ id2 := by intro he; rw [he] at hjr; omega
      exact (List.mem_erase_of_ne hne).mpr (hrH2 j hj (by omega))
    cases t1 <;> cases t2 <;>
      simp only [eqKindFields, Bool.and_eq_true, beq_iff_eq,
        List.all_eq_true, Bool.false_eq_true] at heq
    case basic.basic n1 s1 n2 s2 =>
      obtain ⟨rfl, rfl⟩ := heq
      rfl
    case bitfield.bitfield n1 s1 bl1 bo1 n2 s2 bl2 bo2 =>
      obtain ⟨⟨⟨rfl, rfl⟩, rfl⟩, rfl⟩ := heq
      rfl
    case pointer.pointer n1 s1 c1 v1 p1 n2 s2 c2 v2 p2 =>
      obtain ⟨⟨⟨⟨rfl, rfl⟩, rfl⟩, rfl⟩, hce⟩ := heq
      have hcr1 : rank1 p1 < rank1 id1 :=
        hrk1 (id1, .pointer n1 s1 c1 v1 p1) (find_some_mem hfind1) p1
          (by simp [refIds])
      have hcr2 : rank2 p2 < rank2 id2 :=
        hrk2 (id2, .pointer n1 s1 c1 v1 p2) (find_some_mem hfind2) p2
          (by simp [refIds])
      have := ih p1 (by omega) p2 fuelE (remE.erase (id1, id2))
        fuelH1 (remH1.erase id1) fuelH2 (remH2.erase id2)
        hlE' hlH1' hlH2' (hrE' p1 hcr1) (hrH1' p1 hcr1) (hrH2' p2 hcr2) hce
      simp only [hashKindCode, this]
      rfl
    case userDefined.userDefined n1 s1 fs1 n2 s2 fs2 =>
      obtain ⟨⟨⟨rfl, rfl⟩, hlen⟩, hall⟩ := heq
      have hrankfs1 : ∀ f ∈ fs1, rank1 f.typeId < rank1 id1 := by
        intro f hf
        exact hrk1 (id1, .userDefined n1 s1 fs1) (find_some_mem hfind1)
          f.typeId (List.mem_map.mpr ⟨f, hf, rfl⟩)
      have hrankfs2 : ∀ f ∈ fs2, rank2 f.typeId < rank2 id2 := by
        intro f hf
        exact hrk2 (id2, .userDefined n1 s1 fs2) (find_some_mem hfind2)
          f.typeId (List.mem_map.mpr ⟨f, hf, rfl⟩)
      have hmaps : ∀ (l1 l2 : List Field), l1.length = l2.length →
          (∀ f ∈ l1, rank1 f.typeId < rank1 id1) →
          (∀ f ∈ l2, rank2 f.typeId < rank2 id2) →
          (∀ p ∈ l1.zip l2, (((p.1.name = p.2.name ∧ p.1.offset = p.2.offset) ∧
            p.1.isConst = p.2.isConst) ∧ p.1.isVolatile = p.2.isVolatile) ∧
            typeIsEqualAux repo1 repo2 fuelE (remE.erase (id1, id2))
              p.1.typeId p.2.typeId = true) →
          l1.map (fun f => fieldCode f
              (typeHashAux repo1 fuelH1 (remH1.erase id1) f.typeId)) =
            l2.map (fun f => fieldCode f
              (typeHashAux repo2 fuelH2 (remH2.erase id2) f.typeId)) := by
        intro l1
        induction l1 with
        | nil =>
          intro l2 hl _ _ _
          cases l2 with
          | nil => rfl
          | cons f2 l2 => simp at hl
        | cons f1 l1 ihl =>
          intro l2 hl hb1 hb2 hz
          cases l2 with
          | nil => simp at hl
          | cons f2 l2 =>
            simp only [List.map_cons, List.cons.injEq]
            constructor
            · obtain ⟨⟨⟨⟨hn, ho⟩, hc⟩, hv⟩, he⟩ :=
                hz (f1, f2) (by simp [List.zip_cons_cons])
              refine fieldCode_eq_iff.mpr ⟨hn, ho, hc, hv, ?_⟩
              have hcr1 := hb1 f1 (List.mem_cons_self f1 l1)
              have hcr2 := hb2 f2 (List.mem_cons_self f2 l2)
              exact ih f1.typeId (by omega) f2.typeId fuelE
                (remE.erase (id1, id2)) fuelH1 (remH1.erase id1) fuelH2
                (remH2.erase id2) hlE' hlH1' hlH2' (hrE' f1.typeId hcr1)
                (hrH1' f1.typeId hcr1) (hrH2' f2.typeId hcr2) he
            · refine ihl l2 (by simpa using hl) ?_ ?_ ?_
              · intro f hf
                exact hb1 f (List.mem_cons_of_mem f1 hf)
              · intro f hf
                exact hb2 f (List.mem_cons_of_mem f2 hf)
              · intro p hp
                exact hz p (by simp [List.zip_cons_cons, hp])
      simp only [hashKindCode]
      rw [hmaps fs1 fs2 hlen hrankfs1 hrankfs2 hall]
      rfl

/-! ### Insertion order is irrelevant: permutation invariance -/

theorem perm_erase_lawful {α : Type} [BEq α] [LawfulBEq α] (a : α) :
    ∀ {l1 l2 : List α}, l1.Perm l2 → (l1.erase a).Perm (l2.erase a) := by
  intro l1 l2 hp
  induction hp with
  | nil => exact List.Perm.refl _
  | cons x hp ih =>
    by_cases hxa : x = a
    · subst hxa
      simp only [List.erase_cons, beq_self_eq_true, if_true]
      assumption
    · simp only [List.erase_cons, beq_eq_false_iff_ne.mpr hxa,
        Bool.false_eq_true, if_false]
      exact ih.cons x
  | swap x y l =>
    by_cases hya : y = a
    · by_cases hxa : x = a
      · have hb1 : (y == a) = true := beq_iff_eq.mpr hya
        have hb2 : (x == a) = true := beq_iff_eq.mpr hxa
        simp only [List.erase_cons, hb1, hb2, if_true]
        rw [hxa, hya]
      · have hb1 : (y == a) = true := beq_iff_eq.mpr hya
        have hb2 : (x == a) = false := beq_eq_false_iff_ne.mpr hxa
        simp only [List.erase_cons, hb1, hb2, if_true, Bool.false_eq_true,
          if_false]
        exact List.Perm.refl _
    · by_cases hxa : x = a
      · have hb1 : (y == a) = false := beq_eq_false_iff_ne.mpr hya
        have hb2 : (x == a) = true := beq_iff_eq.mpr hxa
        simp only [List.erase_cons, hb1, hb2, if_true, Bool.false_eq_true,
          if_false]
        exact List.Perm.refl _
      · have hb1 : (y == a) = false := beq_eq_false_iff_ne.mpr hya
        have hb2 : (x == a) = false := beq_eq_false_iff_ne.mpr hxa
        simp only [List.erase_cons, hb1, hb2, Bool.false_eq_true, if_false]
        exact List.Perm.swap x y _
  | trans h1 h2 ih1 ih2 => exact ih1.trans ih2

theorem hashAux_rem_perm {repo : Repo} :
    ∀ fuel (rem1 rem2 : List Nat) id, rem1.Perm rem2 →
      typeHashAux repo fuel rem1 id = typeHashAux repo fuel rem2 id := by
  intro fuel
  induction fuel with
  | zero => intro rem1 rem2 id _; rfl
  | succ fuel ih =>
    intro rem1 rem2 id hp
    cases hfind : repo.find id with
    | none => rw [typeHashAux_none hfind, typeHashAux_none hfind]
    | some t =>
    by_cases hmem : id ∈ rem1
    · have hmem2 : id ∈ rem2 := hp.mem_iff.mp hmem
      rw [typeHashAux_full hfind hmem, typeHashAux_full hfind hmem2]
      congr 1
      cases t with
      | basic n s => rfl
      | bitfield n s bl bo => rfl
      | userDefined n s fs =>
        simp only [hashKindCode]
        congr 1
        apply List.map_congr_left
        intro f _
        exact congrArg (fieldCode f) (ih _ _ f.typeId (hp.erase id))
      | pointer n s c v p =>
        simp only [hashKindCode]
        rw [ih _ _ p (hp.erase id)]
    · have hmem2 : id ∉ rem2 := fun h => hmem (hp.mem_iff.mpr h)
      rw [typeHashAux_shallow hfind hmem, typeHashAux_shallow hfind hmem2]

theorem eqAux_rem_perm {repo1 repo2 : Repo} :
    ∀ fuel (rem1 rem2 : List (Nat × Nat)) id1 id2, rem1.Perm rem2 →
      typeIsEqualAux repo1 repo2 fuel rem1 id1 id2 =
        typeIsEqualAux repo1 repo2 fuel rem2 id1 id2 := by
  intro fuel
  induction fuel with
  | zero => intro _ _ _ _ _; rfl
  | succ fuel ih =>
    intro rem1 rem2 id1 id2 hp
    cases hfind1 : repo1.find id1 with
    | none =>
      rw [typeIsEqualAux_none_left hfind1, typeIsEqualAux_none_left hfind1]
    | some t1 =>
    cases hfind2 : repo2.find id2 with
    | none =>
      rw [typeIsEqualAux_none_right hfind2, typeIsEqualAux_none_right hfind2]
    | some t2 =>
    by_cases hmem : (id1, id2) ∈ rem1
    · have hmem2 : (id1, id2) ∈ rem2 := hp.mem_iff.mp hmem
      rw [typeIsEqualAux_full hfind1 hfind2 hmem,
        typeIsEqualAux_full hfind1 hfind2 hmem2]
      cases t1 <;> cases t2 <;> simp only [eqKindFields]
      · congr 1
        apply list_all_congr
        intro x _
        rw [ih _ _ x.1.typeId x.2.typeId (perm_erase_lawful (id1, id2) hp)]
      · rw [ih _ _ _ _ (perm_erase_lawful (id1, id2) hp)]
    · have hmem2 : (id1, id2) ∉ rem2 := fun h => hmem (hp.mem_iff.mpr h)
      rw [typeIsEqualAux_assumed hfind1 hfind2 hmem,
        typeIsEqualAux_assumed hfind1 hfind2 hmem2]

theorem find_congr_perm {repo1 repo2 : Repo} (hp : repo1.Perm repo2)
    (hnd : repo1.keys.Nodup) (id : Nat) : repo1.find id = repo2.find id := by
  cases hfind : repo1.find id with
  | none =>
    have hk : id ∉ repo1.keys := by
      intro hk
      obtain ⟨t, ht⟩ := find_isSome_of_key_mem hk
      rw [hfind] at ht
      exact Option.noConfusion ht
    have hk2 : id ∉ repo2.keys := fun h => hk ((hp.map Prod.fst).mem_iff.mpr h)
    exact (find_none_of_key_not_mem hk2).symm
  | some t =>
    have hnd2 : repo2.keys.Nodup := ((hp.map Prod.fst).nodup_iff).mp hnd
    exact (find_eq_some_of_mem_nodup hnd2
      (hp.mem_iff.mp (find_some_mem hfind))).symm

theorem hashAux_repo_perm {repo1 repo2 : Repo} (hp : repo1.Perm repo2)
    (hnd : repo1.keys.Nodup) :
    ∀ fuel rem id, typeHashAux repo1 fuel rem id =
      typeHashAux repo2 fuel rem id := by
  intro fuel
  induction fuel with
  | zero => intro _ _; rfl
  | succ fuel ih =>
    intro rem id
    have hf := find_congr_perm hp hnd id
    cases hfind : repo1.find id with
    | none =>
      rw [typeHashAux_none hfind, typeHashAux_none (hf.symm.trans hfind)]
    | some t =>
    have hfind2 : repo2.find id = some t := hf.symm.trans hfind
    by_cases hmem : id ∈ rem
    · rw [typeHashAux_full hfind hmem, typeHashAux_full hfind2 hmem]
      congr 1
      cases t with
      | basic n s => rfl
      | bitfield n s bl bo => rfl
      | userDefined n s fs =>
        simp only [hashKindCode]
        congr 1
        apply List.map_congr_left
        intro f _
        exact congrArg (fieldCode f) (ih _ f.typeId)
      | pointer n s c v p =>
        simp only [hashKindCode]
        rw [ih _ p]
    · rw [typeHashAux_shallow hfind hmem, typeHashAux_shallow hfind2 hmem]

theorem TypeHash_perm {repo1 repo2 : Repo} (hp : repo1.Perm repo2)
    (hnd : repo1.keys.Nodup) (id : Nat) :
    TypeHash repo1 id = TypeHash repo2 id := by
  unfold TypeHash
  calc typeHashAux repo1 (repo1.length + 1) repo1.keys id
      = typeHashAux repo2 (repo1.length + 1) repo1.keys id :=
        hashAux_repo_perm hp hnd _ _ _
    _ = typeHashAux repo2 (repo1.length + 1) repo2.keys id :=
        hashAux_rem_perm _ _ _ _ (hp.map Prod.fst)
    _ = typeHashAux repo2 (repo2.length + 1) repo2.keys id := by
        rw [hp.length_eq]

theorem flatMap_perm_pointwise {α β : Type} (l : List α) (f g : α → List β)
    (h : ∀ a, (f a).Perm (g a)) : (l.flatMap f).Perm (l.flatMap g) := by
  induction l with
  | nil => exact List.Perm.refl _
  | cons a l ih =>
    simp only [List.flatMap_cons]
    exact (h a).append ih

theorem keyPairs_perm {repo1 repo2 repo1' repo2' : Repo}
    (hp1 : repo1.Perm repo1') (hp2 : repo2.Perm repo2') :
    (keyPairs repo1 repo2).Perm (keyPairs repo1' repo2') := by
  have h1 : (keyPairs repo1 repo2).Perm (keyPairs repo1' repo2) :=
    List.Perm.flatMap_right _ (hp1.map Prod.fst)
  have h2 : (keyPairs repo1' repo2).Perm (keyPairs repo1' repo2') :=
    flatMap_perm_pointwise _ _ _ (fun a => (hp2.map Prod.fst).map _)
  exact h1.trans h2

theorem eqAux_repo_perm {repo1 repo2 repo1' repo2' : Repo}
    (hp1 : repo1.Perm repo1') (hnd1 : repo1.keys.Nodup)
    (hp2 : repo2.Perm repo2') (hnd2 : repo2.keys.Nodup) :
    ∀ fuel rem id1 id2, typeIsEqualAux repo1 repo2 fuel rem id1 id2 =
      typeIsEqualAux repo1' repo2' fuel rem id1 id2 := by
  intro fuel
  induction fuel with
  | zero => intro _ _ _; rfl
  | succ fuel ih =>
    intro rem id1 id2
    have hf1 := find_congr_perm hp1 hnd1 id1
    have hf2 := find_congr_perm hp2 hnd2 id2
    cases hfind1 : repo1.find id1 with
    | none =>
      rw [typeIsEqualAux_none_left hfind1,
        typeIsEqualAux_none_left (hf1.symm.trans hfind1)]
    | some t1 =>
    have hfind1' : repo1'.find id1 = some t1 := hf1.symm.trans hfind1
    cases hfind2 : repo2.find id2 with
    | none =>
      rw [typeIsEqualAux_none_right hfind2,
        typeIsEqualAux_none_right (hf2.symm.trans hfind2)]
    | some t2 =>
    have hfind2' : repo2'.find id2 = some t2 := hf2.symm.trans hfind2
    by_cases hmem : (id1, id2) ∈ rem
    · rw [typeIsEqualAux_full hfind1 hfind2 hmem,
        typeIsEqualAux_full hfind1' hfind2' hmem]
      cases t1 <;> cases t2 <;> simp only [eqKindFields]
      · congr 1
        apply list_all_congr
        intro x _
        rw [ih _ x.1.typeId x.2.typeId]
      · rw [ih _ _ _]
    · rw [typeIsEqualAux_assumed hfind1 hfind2 hmem,
        typeIsEqualAux_assumed hfind1' hfind2' hmem]

theorem TypeIsEqual_perm {repo1 repo2 repo1' repo2' : Repo}
    (hp1 : repo1.Perm repo1') (hnd1 : repo1.keys.Nodup)
    (hp2 : repo2.Perm repo2') (hnd2 : repo2.keys.Nodup) (id1 id2 : Nat) :
    TypeIsEqual repo1 repo2 id1 id2 = TypeIsEqual repo1' repo2' id1 id2 := by
  unfold TypeIsEqual
  calc typeIsEqualAux repo1 repo2 (repo1.length * repo2.length + 1)
        (keyPairs repo1 repo2) id1 id2
      = typeIsEqualAux repo1' repo2' (repo1.length * repo2.length + 1)
        (keyPairs repo1 repo2) id1 id2 :=
        eqAux_repo_perm hp1 hnd1 hp2 hnd2 _ _ _ _
    _ = typeIsEqualAux repo1' repo2' (repo1.length * repo2.length + 1)
        (keyPairs repo1' repo2') id1 id2 :=
        eqAux_rem_perm _ _ _ _ _ (keyPairs_perm hp1 hp2)
    _ = typeIsEqualAux repo1' repo2' (repo1'.length * repo2'.length + 1)
        (keyPairs repo1' repo2') id1 id2 := by
        rw [hp1.length_eq, hp2.length_eq]

/-! ### Incidental identities are irrelevant: renaming invariance -/

theorem headerCode_rename (f : Nat → Nat) (t : TypeNode) :
    headerCode (renameNode f t) = headerCode t := by
  cases t <;> rfl

theorem erase_map_of_inj {α β : Type} [BEq α] [LawfulBEq α] [BEq β]
    [LawfulBEq β] {f : α → β} (hf : Function.Injective f) :
    ∀ (l : List α) (a : α), (l.map f).erase (f a) = (l.erase a).map f := by
  intro l a
  induction l with
  | nil => rfl
  | cons x l ih =>
    by_cases hxa : x = a
    · subst hxa
      simp [List.erase_cons]
    · have h1 : (x == a) = false := beq_eq_false_iff_ne.mpr hxa
      have h2 : (f x == f a) = false :=
        beq_eq_false_iff_ne.mpr (fun he => hxa (hf he))
      simp only [List.map_cons, List.erase_cons, h1, h2, Bool.false_eq_true,
        if_false, ih]

theorem find_rename {repo : Repo} {f : Nat → Nat} (hf : Function.Injective f)
    (id : Nat) :
    (renameRepo f repo).find (f id) = (repo.find id).map (renameNode f) := by
  induction repo with
  | nil => rfl
  | cons p l ih =>
    obtain ⟨k, v⟩ := p
    by_cases hk : id = k
    · subst hk
      simp [renameRepo, Repo.find, List.lookup_cons]
    · have h1 : (id == k) = false := beq_eq_false_iff_ne.mpr hk
      have h2 : (f id == f k) = false :=
        beq_eq_false_iff_ne.mpr (fun he => hk (hf he))
      simp only [renameRepo, List.map_cons, Repo.find, List.lookup_cons, h1,
        h2]
      exact ih

theorem keys_rename (f : Nat → Nat) (repo : Repo) :
    (renameRepo f repo).keys = repo.keys.map f := by
  simp [renameRepo, Repo.keys, List.map_map, Function.comp]

theorem hashAux_rename {repo : Repo} {f : Nat → Nat}
    (hf : Function.Injective f) :
    ∀ fuel rem id, typeHashAux (renameRepo f repo) fuel (rem.map f) (f id) =
      typeHashAux repo fuel rem id := by
  intro fuel
  induction fuel with
  | zero => intro _ _; rfl
  | succ fuel ih =>
    intro rem id
    cases hfind : repo.find id with
    | none =>
      have hfind' : (renameRepo f repo).find (f id) = none := by
        rw [find_rename hf, hfind]
        rfl
      rw [typeHashAux_none hfind', typeHashAux_none hfind]
    | some t =>
    have hfind' : (renameRepo f repo).find (f id) = some (renameNode f t) := by
      rw [find_rename hf, hfind]
      rfl
    by_cases hmem : id ∈ rem
    · have hmem' : f id ∈ rem.map f := List.mem_map.mpr ⟨id, hmem, rfl⟩
      rw [typeHashAux_full hfind' hmem', typeHashAux_full hfind hmem,
        erase_map_of_inj hf, headerCode_rename]
      congr 1
      cases t with
      | basic n s => rfl
      | bitfield n s bl bo => rfl
      | userDefined n s fs =>
        simp only [renameNode, hashKindCode, List.map_map]
        congr 1
        apply List.map_congr_left
        intro fd _
        exact congrArg (fieldCode fd) (ih (rem.erase id) fd.typeId)
      | pointer n s c v p =>
        simp only [renameNode, hashKindCode]
        rw [ih (rem.erase id) p]
    · have hmem' : f id ∉ rem.map f := by
        rw [List.mem_map_of_injective hf]
        exact hmem
      rw [typeHashAux_shallow hfind' hmem', typeHashAux_shallow hfind hmem,
        headerCode_rename]

theorem TypeHash_rename {repo : Repo} {f : Nat → Nat}
    (hf : Function.Injective f) (id : Nat) :
    TypeHash (renameRepo f repo) (f id) = TypeHash repo id := by
  unfold TypeHash
  rw [keys_rename]
  have hlen : (renameRepo f repo).length = repo.length := List.length_map _ _
  rw [hlen]
  exact hashAux_rename hf _ _ _

theorem eqAux_rename {repo1 repo2 : Repo} {f1 f2 : Nat → Nat}
    (hf1 : Function.Injective f1) (hf2 : Function.Injective f2) :
    ∀ fuel rem id1 id2,
      typeIsEqualAux (renameRepo f1 repo1) (renameRepo f2 repo2) fuel
        (rem.map (fun p => (f1 p.1, f2 p.2))) (f1 id1) (f2 id2) =
      typeIsEqualAux repo1 repo2 fuel rem id1 id2 := by
  have hg : Function.Injective (fun p : Nat × Nat => (f1 p.1, f2 p.2)) := by
    intro ⟨a, b⟩ ⟨c, d⟩ h
    simp only [Prod.mk.injEq] at h
    simp only [Prod.mk.injEq]
    exact ⟨hf1 h.1, hf2 h.2⟩
  intro fuel
  induction fuel with
  | zero => intro _ _ _; rfl
  | succ fuel ih =>
    intro rem id1 id2
    cases hfind1 : repo1.find id1 with
    | none =>
      have hfind1' : (renameRepo f1 repo1).find (f1 id1) = none := by
        rw [find_rename hf1, hfind1]
        rfl
      rw [typeIsEqualAux_none_left hfind1', typeIsEqualAux_none_left hfind1]
    | some t1 =>
    have hfind1' : (renameRepo f1 repo1).find (f1 id1) =
        some (renameNode f1 t1) := by
      rw [find_rename hf1, hfind1]
      rfl
    cases hfind2 : repo2.find id2 with
    | none =>
      have hfind2' : (renameRepo f2 repo2).find (f2 id2) = none := by
        rw [find_rename hf2, hfind2]
        rfl
      rw [typeIsEqualAux_none_right hfind2', typeIsEqualAux_none_right hfind2]
    | some t2 =>
    have hfind2' : (renameRepo f2 repo2).find (f2 id2) =
        some (renameNode f2 t2) := by
      rw [find_rename hf2, hfind2]
      rfl
    by_cases hmem : (id1, id2) ∈ rem
    · have hmem' : (f1 id1, f2 id2) ∈ rem.map (fun p => (f1 p.1, f2 p.2)) :=
        List.mem_map.mpr ⟨(id1, id2), hmem, rfl⟩
      rw [typeIsEqualAux_full hfind1' hfind2' hmem',
        typeIsEqualAux_full hfind1 hfind2 hmem]
      have herase : (rem.map (fun p : Nat × Nat => (f1 p.1, f2 p.2))).erase
          (f1 id1, f2 id2) =
          (rem.erase (id1, id2)).map (fun p => (f1 p.1, f2 p.2)) :=
        erase_map_of_inj hg rem (id1, id2)
      rw [herase]
      cases t1 <;> cases t2 <;> simp only [renameNode, eqKindFields]
      · simp only [List.length_map]
        congr 1
        rw [List.zip_map, List.all_map]
        apply list_all_congr
        intro x _
        obtain ⟨x1, x2⟩ := x
        simp only [Function.comp, Prod.map, renameField]
        rw [ih (rem.erase (id1, id2)) x1.typeId x2.typeId]
      · rw [ih (rem.erase (id1, id2)) _ _]
    · have hmem' : (f1 id1, f2 id2) ∉
          rem.map (fun p : Nat × Nat => (f1 p.1, f2 p.2)) := by
        intro hc
        obtain ⟨⟨a, b⟩, hab, he⟩ := List.mem_map.mp hc
        simp only [Prod.mk.injEq] at he
        obtain ⟨rfl, rfl⟩ : a = id1 ∧ b = id2 := ⟨hf1 he.1, hf2 he.2⟩
        exact hmem hab
      rw [typeIsEqualAux_assumed hfind1' hfind2' hmem',
        typeIsEqualAux_assumed hfind1 hfind2 hmem]

theorem keyPairs_rename (f1 f2 : Nat → Nat) (repo1 repo2 : Repo) :
    keyPairs (renameRepo f1 repo1) (renameRepo f2 repo2) =
      (keyPairs repo1 repo2).map (fun p => (f1 p.1, f2 p.2)) := by
  unfold keyPairs
  rw [keys_rename, keys_rename, List.flatMap_map, List.map_flatMap]
  congr 1
  funext a
  rw [List.map_map, List.map_map]
  rfl

theorem TypeIsEqual_rename {repo1 repo2 : Repo} {f1 f2 : Nat → Nat}
    (hf1 : Function.Injective f1) (hf2 : Function.Injective f2)
    (id1 id2 : Nat) :
    TypeIsEqual (renameRepo f1 repo1) (renameRepo f2 repo2) (f1 id1)
      (f2 id2) = TypeIsEqual repo1 repo2 id1 id2 := by
  unfold TypeIsEqual
  rw [keyPairs_rename]
  have hl1 : (renameRepo f1 repo1).length = repo1.length := List.length_map _ _
  have hl2 : (renameRepo f2 repo2).length = repo2.length := List.length_map _ _
  rw [hl1, hl2]
  exact eqAux_rename hf1 hf2 _ _ _ _

/-! ### Top-level wrappers and characterizations -/

theorem eqKindFields_eq_true_iff {e : Nat → Nat → Bool} {t1 t2 : TypeNode} :
    eqKindFields e t1 t2 = true ↔
      t1.kind = t2.kind ∧ t1.name = t2.name ∧ t1.size = t2.size ∧
        specKindFieldsMatch (fun a b => e a b = true) t1 t2 := by
  cases t1 <;> cases t2 <;>
    simp [eqKindFields, specKindFieldsMatch, TypeNode.kind, TypeNode.name,
      TypeNode.size, Bool.and_eq_true, beq_iff_eq, List.all_eq_true,
      and_assoc]

theorem specKindFieldsMatch_congr {t1 t2 : TypeNode}
    {sub1 sub2 : Nat → Nat → Prop}
    (h : ∀ c1 ∈ refIds t1, ∀ c2, sub1 c1 c2 ↔ sub2 c1 c2) :
    specKindFieldsMatch sub1 t1 t2 ↔ specKindFieldsMatch sub2 t1 t2 := by
  cases t1 <;> cases t2 <;> simp only [specKindFieldsMatch]
  case userDefined.userDefined n1 s1 fs1 n2 s2 fs2 =>
    refine and_congr Iff.rfl (forall_congr' fun p => forall_congr' fun hp => ?_)
    refine and_congr Iff.rfl (and_congr Iff.rfl (and_congr Iff.rfl
      (and_congr Iff.rfl ?_)))
    have hp1 : p.1 ∈ fs1 := (List.of_mem_zip hp).1
    exact h p.1.typeId (by simp only [refIds]; exact List.mem_map.mpr ⟨p.1, hp1, rfl⟩) p.2.typeId
  case pointer.pointer n1 s1 c1 v1 p1 n2 s2 c2 v2 p2 =>
    refine and_congr Iff.rfl (and_congr Iff.rfl ?_)
    exact h p1 (by simp [refIds]) p2

theorem flatMap_nil_fun {β α : Type} :
    ∀ (l : List β), (l.flatMap fun _ => ([] : List α)) = [] := by
  intro l
  induction l with
  | nil => rfl
  | cons b l ih => simp [List.flatMap_cons, ih]

theorem flatMap_cons_perm {β α : Type} :
    ∀ (l : List β) (x : β → α) (g : β → List α),
      (l.flatMap fun b => x b :: g b).Perm ((l.map x) ++ l.flatMap g) := by
  intro l x g
  induction l with
  | nil => exact List.Perm.refl _
  | cons b l ih =>
    simp only [List.flatMap_cons, List.map_cons, List.cons_append]
    refine List.Perm.cons (x b) ?_
    have h1 : (g b ++ (l.flatMap fun c => x c :: g c)).Perm
        (g b ++ (l.map x ++ l.flatMap g)) := (List.Perm.refl _).append ih
    refine h1.trans ?_
    rw [← List.append_assoc, ← List.append_assoc]
    exact (List.perm_append_comm).append_right _

theorem keyPairs_transpose_perm :
    ∀ (l1 l2 : List Nat),
      (l1.flatMap fun a => l2.map fun b => (b, a)).Perm
        (l2.flatMap fun b => l1.map fun a => (b, a)) := by
  intro l1
  induction l1 with
  | nil =>
    intro l2
    rw [show (l2.flatMap fun b => ([] : List Nat).map fun a => (b, a)) = []
      from flatMap_nil_fun l2]
    exact List.Perm.refl _
  | cons a l1 ih =>
    intro l2
    simp only [List.flatMap_cons, List.map_cons]
    have h2 := flatMap_cons_perm l2 (fun b => (b, a))
      (fun b => l1.map fun a' => (b, a'))
    refine ((List.Perm.refl _).append (ih l2)).trans h2.symm

theorem map_swap_keyPairs_perm (repo1 repo2 : Repo) :
    ((keyPairs repo1 repo2).map Prod.swap).Perm (keyPairs repo2 repo1) := by
  have heq : (keyPairs repo1 repo2).map Prod.swap =
      repo1.keys.flatMap fun a => repo2.keys.map fun b => (b, a) := by
    unfold keyPairs
    rw [List.map_flatMap]
    congr 1
    funext a
    rw [List.map_map]
    rfl
  rw [heq]
  exact keyPairs_transpose_perm repo1.keys repo2.keys

theorem TypeIsEqual_symm_iff (repo1 repo2 : Repo) (id1 id2 : Nat) :
    TypeIsEqual repo1 repo2 id1 id2 = true ↔
      TypeIsEqual repo2 repo1 id2 id1 = true := by
  constructor
  · intro h
    have h1 := eqAux_swap_mp _ _ _ _ h
    unfold TypeIsEqual
    rw [eqAux_rem_perm _ _ _ _ _ (map_swap_keyPairs_perm repo1 repo2).symm,
      Nat.mul_comm]
    exact h1
  · intro h
    have h1 := eqAux_swap_mp _ _ _ _ h
    unfold TypeIsEqual
    rw [eqAux_rem_perm _ _ _ _ _ (map_swap_keyPairs_perm repo2 repo1).symm,
      Nat.mul_comm]
    exact h1

theorem TypeIsEqual_of_same_node {repo : Repo} (hwf : WellFormed repo)
    {id1 id2 : Nat} {t : TypeNode} (h1 : repo.find id1 = some t)
    (h2 : repo.find id2 = some t) : TypeIsEqual repo repo id1 id2 = true := by
  unfold TypeIsEqual
  refine eqAux_diag hwf _ _ _ _ _ h1 h2 ?_
  rw [length_keyPairs]
  exact Nat.lt_succ_self _

theorem TypeHash_eq_of_TypeIsEqual {repo1 repo2 : Repo} {rank1 rank2 : Nat → Nat}
    (hrk1 : Ranked repo1 rank1) (hrk2 : Ranked repo2 rank2) {id1 id2 : Nat}
    (heq : TypeIsEqual repo1 repo2 id1 id2 = true) :
    TypeHash repo1 id1 = TypeHash repo2 id2 := by
  unfold TypeIsEqual at heq
  unfold TypeHash
  refine hash_eq_of_eqAux hrk1 hrk2 (rank1 id1 + 1) id1 (Nat.lt_succ_self _)
    id2 _ _ _ _ _ _ ?_ ?_ ?_ ?_ ?_ ?_ heq
  · rw [length_keyPairs]
    exact Nat.lt_succ_self _
  · rw [Repo.keys, List.length_map]
    exact Nat.lt_succ_self _
  · rw [Repo.keys, List.length_map]
    exact Nat.lt_succ_self _
  · intro j1 j2 hj1 hj2 _
    exact mem_keyPairs.mpr ⟨hj1, hj2⟩
  · intro j hj _
    exact hj
  · intro j hj _
    exact hj

theorem subEqual_eq_TypeIsEqual {repo1 repo2 : Repo} {rank1 : Nat → Nat}
    (hrk1 : Ranked repo1 rank1) {id1 id2 : Nat} {t1 : TypeNode}
    (hfind1 : repo1.find id1 = some t1) (hkey2 : id2 ∈ repo2.keys)
    {c1 : Nat} (hc1 : c1 ∈ refIds t1) (c2 : Nat) :
    subEqual repo1 repo2 id1 id2 c1 c2 = TypeIsEqual repo1 repo2 c1 c2 := by
  have hkey1 := find_some_key_mem hfind1
  have hmem : (id1, id2) ∈ keyPairs repo1 repo2 :=
    mem_keyPairs.mpr ⟨hkey1, hkey2⟩
  have hcr : rank1 c1 < rank1 id1 :=
    hrk1 (id1, t1) (find_some_mem hfind1) c1 hc1
  unfold subEqual TypeIsEqual
  refine eqAux_guard_irrel hrk1 (rank1 c1 + 1) c1 (Nat.lt_succ_self _) c2
    _ _ _ _ ?_ ?_ ?_ ?_
  · rw [List.length_erase_of_mem hmem, length_keyPairs]
    have h0 := List.length_pos_of_mem hmem
    rw [length_keyPairs] at h0
    omega
  · rw [length_keyPairs]
    exact Nat.lt_succ_self _
  · intro j1 j2 hj1 hj2 hjr
    have hne : (j1, j2) ≠ (id1, id2) := by
      intro he
      rw [Prod.mk.injEq] at he
      rw [he.1] at hjr
      omega
    exact (List.mem_erase_of_ne hne).mpr (mem_keyPairs.mpr ⟨hj1, hj2⟩)
  · intro j1 j2 hj1 hj2 _
    exact mem_keyPairs.mpr ⟨hj1, hj2⟩

theorem TypeIsEqual_unfold {repo1 repo2 : Repo} {id1 id2 : Nat}
    {t1 t2 : TypeNode} (hfind1 : repo1.find id1 = some t1)
    (hfind2 : repo2.find id2 = some t2) :
    TypeIsEqual repo1 repo2 id1 id2 =
      eqKindFields (fun a b => subEqual repo1 repo2 id1 id2 a b) t1 t2 := by
  unfold TypeIsEqual
  have hmem : (id1, id2) ∈ keyPairs repo1 repo2 :=
    mem_keyPairs.mpr ⟨find_some_key_mem hfind1, find_some_key_mem hfind2⟩
  rw [typeIsEqualAux_full hfind1 hfind2 hmem]
  rfl

theorem TypeHash_unfold {repo : Repo} {id : Nat} {t : TypeNode}
    (hfind : repo.find id = some t) :
    TypeHash repo id = Nat.pair (headerCode t)
      (hashKindCode (typeHashAux repo repo.length (repo.keys.erase id)) t) := by
  unfold TypeHash
  rw [typeHashAux_full hfind (find_some_key_mem hfind)]

theorem subHash_eq_TypeHash {repo : Repo} {rank : Nat → Nat}
    (hrk : Ranked repo rank) {id : Nat} {t : TypeNode}
    (hfind : repo.find id = some t) {c : Nat} (hc : c ∈ refIds t) :
    typeHashAux repo repo.length (repo.keys.erase id) c = TypeHash repo c := by
  have hkey := find_some_key_mem hfind
  have hcr : rank c < rank id := hrk (id, t) (find_some_mem hfind) c hc
  unfold TypeHash
  refine hashAux_guard_irrel hrk (rank c + 1) c (Nat.lt_succ_self _)
    _ _ _ _ ?_ ?_ ?_ ?_
  · rw [List.length_erase_of_mem hkey, Repo.keys, List.length_map]
    have h0 := List.length_pos_of_mem hkey
    rw [Repo.keys, List.length_map] at h0
    omega
  · rw [Repo.keys, List.length_map]
    exact Nat.lt_succ_self _
  · intro j hj hjr
    have hne : j ≠ id := by intro he; rw [he] at hjr; omega
    exact (List.mem_erase_of_ne hne).mpr hj
  · intro j hj _
    exact hj

theorem renameNode_id (t : TypeNode) : renameNode (fun n => n) t = t := by
  cases t with
  | basic n s => rfl
  | bitfield n s bl bo => rfl
  | userDefined n s fs =>
    simp only [renameNode, TypeNode.userDefined.injEq, true_and]
    have h : ∀ fd ∈ fs, renameField (fun n => n) fd = id fd :=
      fun fd _ => rfl
    rw [List.map_congr_left h, List.map_id]
  | pointer n s c v p => rfl

theorem renameRepo_id (repo : Repo) : renameRepo (fun n => n) repo = repo := by
  unfold renameRepo
  have h : ∀ p ∈ repo, ((fun n => n) (Prod.fst p),
      renameNode (fun n => n) p.2) = id p := by
    intro p _
    rw [renameNode_id]
    rfl
  rw [List.map_congr_left h, List.map_id]

/-! ### The fuel cut-off is unreachable: the guards alone bound the
recursion, on arbitrary — including cyclic — graphs -/

theorem hashAux_fuel_irrel {repo : Repo} :
    ∀ fuel1 fuel2 (rem : List Nat) id, rem.length < fuel1 →
      rem.length < fuel2 →
      typeHashAux repo fuel1 rem id = typeHashAux repo fuel2 rem id := by
  intro fuel1
  induction fuel1 with
  | zero => intro fuel2 rem id h1 _; omega
  | succ fuel1 ih =>
    intro fuel2 rem id h1 h2
    cases fuel2 with
    | zero => omega
    | succ fuel2 =>
    cases hfind : repo.find id with
    | none => rw [typeHashAux_none hfind, typeHashAux_none hfind]
    | some t =>
    by_cases hmem : id ∈ rem
    · rw [typeHashAux_full hfind hmem, typeHashAux_full hfind hmem]
      have hlen1 : (rem.erase id).length < fuel1 := by
        rw [List.length_erase_of_mem hmem]
        have := List.length_pos_of_mem hmem
        omega
      have hlen2 : (rem.erase id).length < fuel2 := by
        rw [List.length_erase_of_mem hmem]
        have := List.length_pos_of_mem hmem
        omega
      congr 1
      cases t with
      | basic n s => rfl
      | bitfield n s bl bo => rfl
      | userDefined n s fs =>
        simp only [hashKindCode]
        congr 1
        apply List.map_congr_left
        intro fd _
        exact congrArg (fieldCode fd) (ih fuel2 _ fd.typeId hlen1 hlen2)
      | pointer n s c v p =>
        simp only [hashKindCode]
        rw [ih fuel2 _ p hlen1 hlen2]
    · rw [typeHashAux_shallow hfind hmem, typeHashAux_shallow hfind hmem]

theorem eqAux_fuel_irrel {repo1 repo2 : Repo} :
    ∀ fuel1 fuel2 (rem : List (Nat × Nat)) id1 id2, rem.length < fuel1 →
      rem.length < fuel2 →
      typeIsEqualAux repo1 repo2 fuel1 rem id1 id2 =
        typeIsEqualAux repo1 repo2 fuel2 rem id1 id2 := by
  intro fuel1
  induction fuel1 with
  | zero => intro fuel2 rem id1 id2 h1 _; omega
  | succ fuel1 ih =>
    intro fuel2 rem id1 id2 h1 h2
    cases fuel2 with
    | zero => omega
    | succ fuel2 =>
    cases hfind1 : repo1.find id1 with
    | none =>
      rw [typeIsEqualAux_none_left hfind1, typeIsEqualAux_none_left hfind1]
    | some t1 =>
    cases hfind2 : repo2.find id2 with
    | none =>
      rw [typeIsEqualAux_none_right hfind2, typeIsEqualAux_none_right hfind2]
    | some t2 =>
    by_cases hmem : (id1, id2) ∈ rem
    · rw [typeIsEqualAux_full hfind1 hfind2 hmem,
        typeIsEqualAux_full hfind1 hfind2 hmem]
      have hlen1 : (rem.erase (id1, id2)).length < fuel1 := by
        rw [List.length_erase_of_mem hmem]
        have := List.length_pos_of_mem hmem
        omega
      have hlen2 : (rem.erase (id1, id2)).length < fuel2 := by
        rw [List.length_erase_of_mem hmem]
        have := List.length_pos_of_mem hmem
        omega
      cases t1 <;> cases t2 <;> simp only [eqKindFields]
      · congr 1
        apply list_all_congr
        intro x _
        rw [ih fuel2 _ x.1.typeId x.2.typeId hlen1 hlen2]
      · rw [ih fuel2 _ _ _ hlen1 hlen2]
    · rw [typeIsEqualAux_assumed hfind1 hfind2 hmem,
        typeIsEqualAux_assumed hfind1 hfind2 hmem]

theorem TypeIsEqual_rename_diag {repo : Repo} {f : Nat → Nat}
    (hwf : WellFormed repo) (hf : Function.Injective f) {id : Nat}
    {t : TypeNode} (hfind : repo.find id = some t) :
    TypeIsEqual repo (renameRepo f repo) id (f id) = true := by
  have h2 := @TypeIsEqual_rename repo repo (fun n => n) f
    (fun a b h => h) hf id id
  simp only [renameRepo_id] at h2
  rw [h2]
  exact TypeIsEqual_of_same_node hwf hfind hfind

/-! ### Claim theorems -/

/-- C1 (counterexample to the claim as stated): with the cycle guards of
§4.4–4.5, a one-node pointer self-loop and an independently built two-node
pointer cycle with identical names and sizes are structurally equal
(the pair guard treats re-entered pairs as tentative matches), yet their
hashes differ, because the hash guard folds the shallow signature at
different unrolling depths.  So structural equality does not imply hash
equality on cyclic graphs. -/
theorem C1_counterexample_cycles :
    TypeIsEqual [(1, .pointer "p" 4 false false 1)]
        [(1, .pointer "p" 4 false false 2), (2, .pointer "p" 4 false false 1)]
        1 1 = true ∧
      TypeHash [(1, .pointer "p" 4 false false 1)] 1 ≠
        TypeHash [(1, .pointer "p" 4 false false 2),
          (2, .pointer "p" 4 false false 1)] 1 := by
  decide

/-- C1 (amended): on acyclic repositories — those admitting a rank function
that strictly decreases along every reference edge — structural equality
`TypeIsEqual` implies equality of `TypeHash`; hashing compares structure,
never node identity. -/
theorem C1_structural_equality_implies_equal_hash :
    ∀ (repo1 repo2 : Repo) (rank1 rank2 : Nat → Nat) (id1 id2 : Nat),
      Ranked repo1 rank1 → Ranked repo2 rank2 →
      TypeIsEqual repo1 repo2 id1 id2 = true →
      TypeHash repo1 id1 = TypeHash repo2 id2 := by
  intro repo1 repo2 rank1 rank2 id1 id2 hrk1 hrk2 heq
  exact TypeHash_eq_of_TypeIsEqual hrk1 hrk2 heq

/-- C1 witness: two distinct singleton repositories holding structurally
identical `Basic` nodes under different identities. -/
theorem C1_witness :
    TypeHash [(0, .basic "b" 4)] 0 = TypeHash [(3, .basic "b" 4)] 3 :=
  C1_structural_equality_implies_equal_hash [(0, .basic "b" 4)]
    [(3, .basic "b" 4)] (fun n => n) (fun n => n) 0 3
    (by unfold Ranked; decide) (by unfold Ranked; decide) (by decide)

/-- C4: settled universally.  (i) Termination on arbitrary — including
cyclic — graphs via the call-scoped cycle guards: neither computation
depends on its fuel once the fuel exceeds the size of the remaining guard
set, i.e. the fuel cut-off branch is unreachable and the guards alone
bound the recursion (the top-level entry points supply exactly such fuel).
(ii) For every well-formed type graph — self-referential ones included —
and every independently built isomorphic rebuild (the nodes re-created
under any injective renaming of identities, inserted in any order),
`TypeIsEqual` relates each node to its rebuilt copy and `TypeHash` returns
equal values on them. -/
theorem C4_cyclic_termination_and_isomorphic_rebuild :
    (∀ (repo : Repo) (fuel1 fuel2 : Nat) (rem : List Nat) (id : Nat),
      rem.length < fuel1 → rem.length < fuel2 →
      typeHashAux repo fuel1 rem id = typeHashAux repo fuel2 rem id) ∧
    (∀ (repo1 repo2 : Repo) (fuel1 fuel2 : Nat) (rem : List (Nat × Nat))
      (id1 id2 : Nat), rem.length < fuel1 → rem.length < fuel2 →
      typeIsEqualAux repo1 repo2 fuel1 rem id1 id2 =
        typeIsEqualAux repo1 repo2 fuel2 rem id1 id2) ∧
    (∀ (repo repo2 : Repo) (f : Nat → Nat) (id : Nat) (t : TypeNode),
      WellFormed repo → repo.keys.Nodup → Function.Injective f →
      (renameRepo f repo).Perm repo2 → repo.find id = some t →
      TypeIsEqual repo repo2 id (f id) = true ∧
        TypeHash repo id = TypeHash repo2 (f id)) := by
  refine ⟨?_, ?_, ?_⟩
  · intro repo fuel1 fuel2 rem id h1 h2
    exact hashAux_fuel_irrel fuel1 fuel2 rem id h1 h2
  · intro repo1 repo2 fuel1 fuel2 rem id1 id2 h1 h2
    exact eqAux_fuel_irrel fuel1 fuel2 rem id1 id2 h1 h2
  · intro repo repo2 f id t hwf hnd hf hp hfind
    have hnd2 : (renameRepo f repo).keys.Nodup := by
      rw [keys_rename]
      exact List.Nodup.map hf hnd
    constructor
    · rw [← TypeIsEqual_perm (List.Perm.refl repo) hnd hp hnd2 id (f id)]
      exact TypeIsEqual_rename_diag hwf hf hfind
    · rw [← TypeHash_perm hp hnd2 (f id), TypeHash_rename hf id]

/-- C4 witness: the spec's scenario as one instance of the universal
theorem.  `Node` is the self-referential UserDefined type in the cyclic
two-node repository; `Node2` is its independent rebuild under the renaming
`n ↦ n + 3`, inserted in the opposite order.  The fuel-independence parts
are instantiated on the same cyclic repository. -/
theorem C4_witness :
    typeHashAux [(1, .userDefined "Node" 8 [⟨"next", 0, false, false, 2⟩]),
        (2, .pointer "Node*" 4 false false 1)] 3 [1, 2] 1 =
      typeHashAux [(1, .userDefined "Node" 8 [⟨"next", 0, false, false, 2⟩]),
        (2, .pointer "Node*" 4 false false 1)] 10 [1, 2] 1 ∧
    typeIsEqualAux
        [(1, .userDefined "Node" 8 [⟨"next", 0, false, false, 2⟩]),
          (2, .pointer "Node*" 4 false false 1)]
        [(5, .pointer "Node*" 4 false false 4),
          (4, .userDefined "Node" 8 [⟨"next", 0, false, false, 5⟩])]
        5 [(1, 4), (1, 5), (2, 4), (2, 5)] 1 4 =
      typeIsEqualAux
        [(1, .userDefined "Node" 8 [⟨"next", 0, false, false, 2⟩]),
          (2, .pointer "Node*" 4 false false 1)]
        [(5, .pointer "Node*" 4 false false 4),
          (4, .userDefined "Node" 8 [⟨"next", 0, false, false, 5⟩])]
        9 [(1, 4), (1, 5), (2, 4), (2, 5)] 1 4 ∧
    (TypeIsEqual
        [(1, .userDefined "Node" 8 [⟨"next", 0, false, false, 2⟩]),
          (2, .pointer "Node*" 4 false false 1)]
        [(5, .pointer "Node*" 4 false false 4),
          (4, .userDefined "Node" 8 [⟨"next", 0, false, false, 5⟩])]
        1 ((fun n => n + 3) 1) = true ∧
      TypeHash [(1, .userDefined "Node" 8 [⟨"next", 0, false, false, 2⟩]),
          (2, .pointer "Node*" 4 false false 1)] 1 =
        TypeHash [(5, .pointer "Node*" 4 false false 4),
          (4, .userDefined "Node" 8 [⟨"next", 0, false, false, 5⟩])]
          ((fun n => n + 3) 1)) :=
  ⟨C4_cyclic_termination_and_isomorphic_rebuild.1
      [(1, .userDefined "Node" 8 [⟨"next", 0, false, false, 2⟩]),
        (2, .pointer "Node*" 4 false false 1)] 3 10 [1, 2] 1
      (by decide) (by decide),
    C4_cyclic_termination_and_isomorphic_rebuild.2.1
      [(1, .userDefined "Node" 8 [⟨"next", 0, false, false, 2⟩]),
        (2, .pointer "Node*" 4 false false 1)]
      [(5, .pointer "Node*" 4 false false 4),
        (4, .userDefined "Node" 8 [⟨"next", 0, false, false, 5⟩])]
      5 9 [(1, 4), (1, 5), (2, 4), (2, 5)] 1 4 (by decide) (by decide),
    C4_cyclic_termination_and_isomorphic_rebuild.2.2
      [(1, .userDefined "Node" 8 [⟨"next", 0, false, false, 2⟩]),
        (2, .pointer "Node*" 4 false false 1)]
      [(5, .pointer "Node*" 4 false false 4),
        (4, .userDefined "Node" 8 [⟨"next", 0, false, false, 5⟩])]
      (fun n => n + 3) 1
      (.userDefined "Node" 8 [⟨"next", 0, false, false, 2⟩])
      (by unfold WellFormed; decide) (by decide)
      (by intro a b h; simpa using h) (by decide) (by decide)⟩

/-- C5: `CastTo` to a node's own kind succeeds and yields the node itself
(exposing exactly that kind's fields); `CastTo` to any other kind fails
with no output produced (the handle stays unset, modelled by `none`) and no
fault; in particular a Basic node never downcasts to Pointer.  The
function is pure, so a failed cast has no side effects. -/
theorem C5_castTo_kind_checked :
    (∀ (t : TypeNode) (k : TypeKind), t.kind = k → castTo k t = some t) ∧
    (∀ (t : TypeNode) (k : TypeKind), t.kind ≠ k → castTo k t = none) ∧
    (∀ (n : String) (s : Nat), castTo .Pointer (.basic n s) = none) := by
  refine ⟨?_, ?_, ?_⟩
  · intro t k h
    simp [castTo, h]
  · intro t k h
    simp [castTo, h]
  · intro n s
    simp [castTo, TypeNode.kind]

/-- C5 witness: a Basic node downcasts to Basic and not to Pointer. -/
theorem C5_witness :
    castTo .Basic (.basic "foo" 10) = some (.basic "foo" 10) ∧
      castTo .Pointer (.basic "foo" 10) = none :=
  ⟨C5_castTo_kind_checked.1 (.basic "foo" 10) .Basic (by decide),
    C5_castTo_kind_checked.2.1 (.basic "foo" 10) .Pointer (by decide)⟩

/-- C8: constructing a Bitfield whose `bit_offset + bit_length` exceeds
`size * bits_per_unit` fails at construction time with an invalid-input
result, and every node the constructor does produce satisfies the
invariant; for valid inputs construction succeeds and the accessors return
exactly the supplied values. -/
theorem C8_bitfield_construction_validated :
    (∀ (n : String) (s bl bo : Nat), s * bitsPerUnit < bo + bl →
      mkBitfieldType n s bl bo = none) ∧
    (∀ (n : String) (s bl bo : Nat), bo + bl ≤ s * bitsPerUnit →
      mkBitfieldType n s bl bo = some (.bitfield n s bl bo) ∧
        (TypeNode.bitfield n s bl bo).kind = .Bitfield ∧
        (TypeNode.bitfield n s bl bo).name = n ∧
        (TypeNode.bitfield n s bl bo).size = s ∧
        (TypeNode.bitfield n s bl bo).bitLength = bl ∧
        (TypeNode.bitfield n s bl bo).bitOffset = bo) ∧
    (∀ (n : String) (s bl bo : Nat) (t : TypeNode),
      mkBitfieldType n s bl bo = some t →
        t.bitOffset + t.bitLength ≤ t.size * bitsPerUnit) := by
  refine ⟨?_, ?_, ?_⟩
  · intro n s bl bo h
    simp only [mkBitfieldType, if_neg (by omega : ¬(bo + bl ≤ s * bitsPerUnit))]
  · intro n s bl bo h
    refine ⟨by simp [mkBitfieldType, h], rfl, rfl, rfl, rfl, rfl⟩
  · intro n s bl bo t h
    unfold mkBitfieldType at h
    by_cases hb : bo + bl ≤ s * bitsPerUnit
    · rw [if_pos hb] at h
      obtain rfl : TypeNode.bitfield n s bl bo = t := Option.some.inj h
      simpa [TypeNode.bitOffset, TypeNode.bitLength, TypeNode.size] using hb
    · rw [if_neg hb] at h
      exact Option.noConfusion h

/-- C8 witness: the spec's concrete scenario `Bitfield("bar", 4, 3, 1)`
(valid: 1 + 3 ≤ 32) and an invalid construction. -/
theorem C8_witness :
    mkBitfieldType "bar" 4 3 1 = some (.bitfield "bar" 4 3 1) ∧
      mkBitfieldType "baz" 0 2 0 = none :=
  ⟨(C8_bitfield_construction_validated.2.1 "bar" 4 3 1 (by decide)).1,
    C8_bitfield_construction_validated.1 "baz" 0 2 0 (by decide)⟩

/-- C9: a successful `CastTo` is identity-preserving, not a copy: the
yielded handle is the very same node, so the kind-agnostic accessors
observed through either handle agree. -/
theorem C9_castTo_identity_preserving :
    ∀ (t : TypeNode) (k : TypeKind) (u : TypeNode), castTo k t = some u →
      u = t ∧ u.kind = t.kind ∧ u.name = t.name ∧ u.size = t.size := by
  intro t k u h
  unfold castTo at h
  by_cases hk : t.kind = k
  · rw [if_pos hk] at h
    obtain rfl : t = u := Option.some.inj h
    exact ⟨rfl, rfl, rfl, rfl⟩
  · rw [if_neg hk] at h
    exact Option.noConfusion h

/-- C9 witness: casting a UserDefined node to its own kind yields the same
node with agreeing accessors. -/
theorem C9_witness :
    (TypeNode.userDefined "foo" 10 []) = (TypeNode.userDefined "foo" 10 []) ∧
      (TypeNode.userDefined "foo" 10 []).kind =
        (TypeNode.userDefined "foo" 10 []).kind ∧
      (TypeNode.userDefined "foo" 10 []).name =
        (TypeNode.userDefined "foo" 10 []).name ∧
      (TypeNode.userDefined "foo" 10 []).size =
        (TypeNode.userDefined "foo" 10 []).size :=
  C9_castTo_identity_preserving (.userDefined "foo" 10 []) .UserDefined
    (.userDefined "foo" 10 []) (by decide)

/-- C3: `TypeIsEqual` returns true iff the two nodes have the same kind,
name and size and their kind-specific fields match — Bitfield compares
`bit_length`/`bit_offset`; Pointer compares the flags and recursively the
pointees; UserDefined compares field count and, in order, per-field name,
offset, flags and recursively the referenced types.  In the first
characterization the recursive comparison is the one the algorithm performs
(with the pair `(id1, id2)` held in the call-scoped in-progress guard,
`subEqual`); on acyclic repositories this coincides with full recursive
`TypeIsEqual`, giving the second characterization. -/
theorem C3_equality_characterization :
    ∀ (repo1 repo2 : Repo) (id1 id2 : Nat) (t1 t2 : TypeNode),
      repo1.find id1 = some t1 → repo2.find id2 = some t2 →
      (TypeIsEqual repo1 repo2 id1 id2 = true ↔
        t1.kind = t2.kind ∧ t1.name = t2.name ∧ t1.size = t2.size ∧
          specKindFieldsMatch
            (fun a b => subEqual repo1 repo2 id1 id2 a b = true) t1 t2) ∧
      (∀ rank1 rank2, Ranked repo1 rank1 → Ranked repo2 rank2 →
        (TypeIsEqual repo1 repo2 id1 id2 = true ↔
          t1.kind = t2.kind ∧ t1.name = t2.name ∧ t1.size = t2.size ∧
            specKindFieldsMatch
              (fun a b => TypeIsEqual repo1 repo2 a b = true) t1 t2)) := by
  intro repo1 repo2 id1 id2 t1 t2 hfind1 hfind2
  have hpart1 : TypeIsEqual repo1 repo2 id1 id2 = true ↔
      t1.kind = t2.kind ∧ t1.name = t2.name ∧ t1.size = t2.size ∧
        specKindFieldsMatch
          (fun a b => subEqual repo1 repo2 id1 id2 a b = true) t1 t2 := by
    rw [TypeIsEqual_unfold hfind1 hfind2]
    exact eqKindFields_eq_true_iff
  refine ⟨hpart1, ?_⟩
  intro rank1 rank2 hrk1 hrk2
  rw [hpart1]
  refine and_congr Iff.rfl (and_congr Iff.rfl (and_congr Iff.rfl ?_))
  apply specKindFieldsMatch_congr
  intro c1 hc1 c2
  rw [subEqual_eq_TypeIsEqual hrk1 hfind1 (find_some_key_mem hfind2) hc1 c2]

/-- C3 witness: a pointer to a basic node in an acyclic two-node
repository. -/
theorem C3_witness :
    (TypeIsEqual [(1, .pointer "p" 4 true false 2), (2, .basic "b" 4)]
        [(1, .pointer "p" 4 true false 2), (2, .basic "b" 4)] 1 1 = true ↔
      (TypeNode.pointer "p" 4 true false 2).kind =
          (TypeNode.pointer "p" 4 true false 2).kind ∧
        (TypeNode.pointer "p" 4 true false 2).name =
          (TypeNode.pointer "p" 4 true false 2).name ∧
        (TypeNode.pointer "p" 4 true false 2).size =
          (TypeNode.pointer "p" 4 true false 2).size ∧
        specKindFieldsMatch
          (fun a b => subEqual [(1, .pointer "p" 4 true false 2),
            (2, .basic "b" 4)] [(1, .pointer "p" 4 true false 2),
            (2, .basic "b" 4)] 1 1 a b = true)
          (.pointer "p" 4 true false 2) (.pointer "p" 4 true false 2)) ∧
    (∀ rank1 rank2,
      Ranked [(1, .pointer "p" 4 true false 2), (2, .basic "b" 4)] rank1 →
      Ranked [(1, .pointer "p" 4 true false 2), (2, .basic "b" 4)] rank2 →
      (TypeIsEqual [(1, .pointer "p" 4 true false 2), (2, .basic "b" 4)]
          [(1, .pointer "p" 4 true false 2), (2, .basic "b" 4)] 1 1 = true ↔
        (TypeNode.pointer "p" 4 true false 2).kind =
            (TypeNode.pointer "p" 4 true false 2).kind ∧
          (TypeNode.pointer "p" 4 true false 2).name =
            (TypeNode.pointer "p" 4 true false 2).name ∧
          (TypeNode.pointer "p" 4 true false 2).size =
            (TypeNode.pointer "p" 4 true false 2).size ∧
          specKindFieldsMatch
            (fun a b => TypeIsEqual [(1, .pointer "p" 4 true false 2),
              (2, .basic "b" 4)] [(1, .pointer "p" 4 true false 2),
              (2, .basic "b" 4)] a b = true)
            (.pointer "p" 4 true false 2) (.pointer "p" 4 true false 2))) :=
  C3_equality_characterization
    [(1, .pointer "p" 4 true false 2), (2, .basic "b" 4)]
    [(1, .pointer "p" 4 true false 2), (2, .basic "b" 4)] 1 1
    (.pointer "p" 4 true false 2) (.pointer "p" 4 true false 2)
    (by decide) (by decide)

/-- C7 (counterexample to the claim as stated): in a cyclic repository two
distinct nodes carrying literally identical data — two pointers to the
same pointee, one of them on a two-cycle — compare structurally equal,
yet hash differently, because the hash's node-scoped guard shallows the
cycle at different depths along the two computations. -/
theorem C7_counterexample_cycles :
    TypeIsEqual
        [(1, .pointer "p" 4 false false 2), (2, .pointer "q" 4 false false 1),
          (3, .pointer "p" 4 false false 2)]
        [(1, .pointer "p" 4 false false 2), (2, .pointer "q" 4 false false 1),
          (3, .pointer "p" 4 false false 2)] 1 3 = true ∧
      TypeHash [(1, .pointer "p" 4 false false 2),
          (2, .pointer "q" 4 false false 1),
          (3, .pointer "p" 4 false false 2)] 1 ≠
        TypeHash [(1, .pointer "p" 4 false false 2),
          (2, .pointer "q" 4 false false 1),
          (3, .pointer "p" 4 false false 2)] 3 := by
  decide

/-- C7 (amended): two distinct node identities carrying identical declared
structure compare equal (value semantics, in a well-formed repository);
they also hash equal provided the reference graph is acyclic; structural
equality is reflexive (well-formed repositories) and symmetric. -/
theorem C7_value_semantics :
    (∀ (repo : Repo) (id1 id2 : Nat) (t : TypeNode), WellFormed repo →
      repo.find id1 = some t → repo.find id2 = some t →
      TypeIsEqual repo repo id1 id2 = true) ∧
    (∀ (repo : Repo) (rank : Nat → Nat) (id1 id2 : Nat) (t : TypeNode),
      WellFormed repo → Ranked repo rank →
      repo.find id1 = some t → repo.find id2 = some t →
      TypeHash repo id1 = TypeHash repo id2) ∧
    (∀ (repo : Repo) (id : Nat) (t : TypeNode), WellFormed repo →
      repo.find id = some t → TypeIsEqual repo repo id id = true) ∧
    (∀ (repo1 repo2 : Repo) (id1 id2 : Nat),
      TypeIsEqual repo1 repo2 id1 id2 = true ↔
        TypeIsEqual repo2 repo1 id2 id1 = true) := by
  refine ⟨?_, ?_, ?_, ?_⟩
  · intro repo id1 id2 t hwf h1 h2
    exact TypeIsEqual_of_same_node hwf h1 h2
  · intro repo rank id1 id2 t hwf hrk h1 h2
    exact TypeHash_eq_of_TypeIsEqual hrk hrk
      (TypeIsEqual_of_same_node hwf h1 h2)
  · intro repo id t hwf h
    exact TypeIsEqual_of_same_node hwf h h
  · intro repo1 repo2 id1 id2
    exact TypeIsEqual_symm_iff repo1 repo2 id1 id2

/-- C7 witness: two separately inserted `Basic("basic", 4)` instances in
one repository compare equal and hash equal; reflexivity and symmetry at
the same inputs. -/
theorem C7_witness :
    TypeIsEqual [(0, .basic "basic" 4), (1, .basic "basic" 4)]
        [(0, .basic "basic" 4), (1, .basic "basic" 4)] 0 1 = true ∧
      TypeHash [(0, .basic "basic" 4), (1, .basic "basic" 4)] 0 =
        TypeHash [(0, .basic "basic" 4), (1, .basic "basic" 4)] 1 ∧
      TypeIsEqual [(0, .basic "basic" 4), (1, .basic "basic" 4)]
        [(0, .basic "basic" 4), (1, .basic "basic" 4)] 0 0 = true ∧
      (TypeIsEqual [(0, .basic "basic" 4), (1, .basic "basic" 4)]
          [(0, .basic "basic" 4), (1, .basic "basic" 4)] 0 1 = true ↔
        TypeIsEqual [(0, .basic "basic" 4), (1, .basic "basic" 4)]
          [(0, .basic "basic" 4), (1, .basic "basic" 4)] 1 0 = true) :=
  ⟨C7_value_semantics.1 [(0, .basic "basic" 4), (1, .basic "basic" 4)] 0 1
      (.basic "basic" 4) (by unfold WellFormed; decide) (by decide)
      (by decide),
    C7_value_semantics.2.1 [(0, .basic "basic" 4), (1, .basic "basic" 4)]
      (fun n => n) 0 1 (.basic "basic" 4) (by unfold WellFormed; decide)
      (by unfold Ranked; decide) (by decide) (by decide),
    C7_value_semantics.2.2.1 [(0, .basic "basic" 4), (1, .basic "basic" 4)]
      0 (.basic "basic" 4) (by unfold WellFormed; decide) (by decide),
    C7_value_semantics.2.2.2 [(0, .basic "basic" 4), (1, .basic "basic" 4)]
      [(0, .basic "basic" 4), (1, .basic "basic" 4)] 0 1⟩

/-- C10: a UserDefined type with an empty field sequence is a valid node —
it is constructed, hashed and compared by the same total functions as any
other node — and it is unequal to, and hashes differently from, an
otherwise identical UserDefined type with at least one field. -/
theorem C10_empty_udt_valid_and_distinct :
    ∀ (repo1 repo2 : Repo) (id1 id2 : Nat) (n : String) (s : Nat)
      (f : Field) (fs : List Field),
      repo1.find id1 = some (.userDefined n s []) →
      repo2.find id2 = some (.userDefined n s (f :: fs)) →
      TypeIsEqual repo1 repo2 id1 id2 = false ∧
        TypeHash repo1 id1 ≠ TypeHash repo2 id2 := by
  intro repo1 repo2 id1 id2 n s f fs h1 h2
  constructor
  · by_contra hc
    rw [Bool.not_eq_false, TypeIsEqual_unfold h1 h2] at hc
    obtain ⟨_, _, _, hm⟩ := eqKindFields_eq_true_iff.mp hc
    simp [specKindFieldsMatch] at hm
  · intro hc
    rw [TypeHash_unfold h1, TypeHash_unfold h2, Nat.pair_eq_pair] at hc
    obtain ⟨_, hspec⟩ := hc
    simp only [hashKindCode, List.map_nil, List.map_cons, natListCode]
      at hspec
    omega

/-- C10 witness: `udt` with no fields against `udt` with one field. -/
theorem C10_witness :
    TypeIsEqual [(0, .userDefined "udt" 8 []), (1, .basic "onetype" 4),
        (2, .userDefined "udt" 8 [⟨"one", 0, false, false, 1⟩])]
      [(0, .userDefined "udt" 8 []), (1, .basic "onetype" 4),
        (2, .userDefined "udt" 8 [⟨"one", 0, false, false, 1⟩])] 0 2
      = false ∧
    TypeHash [(0, .userDefined "udt" 8 []), (1, .basic "onetype" 4),
        (2, .userDefined "udt" 8 [⟨"one", 0, false, false, 1⟩])] 0 ≠
      TypeHash [(0, .userDefined "udt" 8 []), (1, .basic "onetype" 4),
        (2, .userDefined "udt" 8 [⟨"one", 0, false, false, 1⟩])] 2 :=
  C10_empty_udt_valid_and_distinct
    [(0, .userDefined "udt" 8 []), (1, .basic "onetype" 4),
      (2, .userDefined "udt" 8 [⟨"one", 0, false, false, 1⟩])]
    [(0, .userDefined "udt" 8 []), (1, .basic "onetype" 4),
      (2, .userDefined "udt" 8 [⟨"one", 0, false, false, 1⟩])] 0 2
    "udt" 8 ⟨"one", 0, false, false, 1⟩ [] (by decide) (by decide)

/-- C2: `TypeHash` and `TypeIsEqual` are pure functions of the declared
structure only.  Beyond purity (they are Lean functions, so equal inputs
give equal results), the results are invariant under the two incidental
choices the claim names: the insertion order of nodes in the repository
(any permutation of a duplicate-free repository) and the identities of the
nodes (any injective renaming, the model of changing memory addresses). -/
theorem C2_results_depend_only_on_structure :
    (∀ (repo repo' : Repo) (id : Nat), repo.Perm repo' → repo.keys.Nodup →
      TypeHash repo id = TypeHash repo' id) ∧
    (∀ (repo1 repo1' repo2 repo2' : Repo) (id1 id2 : Nat),
      repo1.Perm repo1' → repo1.keys.Nodup → repo2.Perm repo2' →
      repo2.keys.Nodup →
      TypeIsEqual repo1 repo2 id1 id2 = TypeIsEqual repo1' repo2' id1 id2) ∧
    (∀ (repo : Repo) (f : Nat → Nat) (id : Nat), Function.Injective f →
      TypeHash (renameRepo f repo) (f id) = TypeHash repo id) ∧
    (∀ (repo1 repo2 : Repo) (f1 f2 : Nat → Nat) (id1 id2 : Nat),
      Function.Injective f1 → Function.Injective f2 →
      TypeIsEqual (renameRepo f1 repo1) (renameRepo f2 repo2) (f1 id1)
        (f2 id2) = TypeIsEqual repo1 repo2 id1 id2) := by
  refine ⟨?_, ?_, ?_, ?_⟩
  · intro repo repo' id hp hnd
    exact TypeHash_perm hp hnd id
  · intro repo1 repo1' repo2 repo2' id1 id2 hp1 hnd1 hp2 hnd2
    exact TypeIsEqual_perm hp1 hnd1 hp2 hnd2 id1 id2
  · intro repo f id hf
    exact TypeHash_rename hf id
  · intro repo1 repo2 f1 f2 id1 id2 hf1 hf2
    exact TypeIsEqual_rename hf1 hf2 id1 id2

/-- C2 witness: a two-node repository inserted in the opposite order, and
the same repository with every identity shifted by five. -/
theorem C2_witness :
    TypeHash [(0, .basic "a" 1), (1, .basic "b" 2)] 0 =
      TypeHash [(1, .basic "b" 2), (0, .basic "a" 1)] 0 ∧
    TypeIsEqual [(0, .basic "a" 1), (1, .basic "b" 2)]
        [(0, .basic "a" 1), (1, .basic "b" 2)] 0 1 =
      TypeIsEqual [(1, .basic "b" 2), (0, .basic "a" 1)]
        [(1, .basic "b" 2), (0, .basic "a" 1)] 0 1 ∧
    TypeHash (renameRepo (fun n => n + 5)
        [(0, .basic "a" 1), (1, .basic "b" 2)]) ((fun n => n + 5) 0) =
      TypeHash [(0, .basic "a" 1), (1, .basic "b" 2)] 0 ∧
    TypeIsEqual (renameRepo (fun n => n + 5)
          [(0, .basic "a" 1), (1, .basic "b" 2)])
        (renameRepo (fun n => n + 5) [(0, .basic "a" 1), (1, .basic "b" 2)])
        ((fun n => n + 5) 0) ((fun n => n + 5) 1) =
      TypeIsEqual [(0, .basic "a" 1), (1, .basic "b" 2)]
        [(0, .basic "a" 1), (1, .basic "b" 2)] 0 1 :=
  ⟨C2_results_depend_only_on_structure.1 _ _ 0 (by decide) (by decide),
    C2_results_depend_only_on_structure.2.1 _ _ _ _ 0 1 (by decide)
      (by decide) (by decide) (by decide),
    C2_results_depend_only_on_structure.2.2.1 _ (fun n => n + 5) 0
      (by intro a b h; simpa using h),
    C2_results_depend_only_on_structure.2.2.2 _ _ (fun n => n + 5)
      (fun n => n + 5) 0 1 (by intro a b h; simpa using h)
      (by intro a b h; simpa using h)⟩

/-- C6 (counterexample to the claim as stated): changing exactly one
attribute — a pointer's referenced type, rewired from one node to a
distinct but structurally identical node, all other attributes constant —
leaves `TypeIsEqual` true and `TypeHash` unchanged, because hashing and
equality compare structure, never reference identity (as C1's sources
state). -/
theorem C6_counterexample_identical_replacement :
    TypeIsEqual
        [(1, .pointer "ptr" 4 false false 2), (2, .basic "b" 4),
          (3, .basic "b" 4), (4, .pointer "ptr" 4 false false 3)]
        [(1, .pointer "ptr" 4 false false 2), (2, .basic "b" 4),
          (3, .basic "b" 4), (4, .pointer "ptr" 4 false false 3)]
        1 4 = true ∧
      TypeHash [(1, .pointer "ptr" 4 false false 2), (2, .basic "b" 4),
          (3, .basic "b" 4), (4, .pointer "ptr" 4 false false 3)] 1 =
        TypeHash [(1, .pointer "ptr" 4 false false 2), (2, .basic "b" 4),
          (3, .basic "b" 4), (4, .pointer "ptr" 4 false false 3)] 4 := by
  decide

/-- C6 (amended): changing exactly one scalar attribute — the node's name,
size, `bit_length`, `bit_offset`, a field's offset, or a field's
const/volatile flag — always makes `TypeIsEqual` false and changes
`TypeHash`; changing a field's or pointee's referenced type does so when
the new referenced type has a different structural hash and the
repositories are acyclic (replacing it by a structurally identical node
changes nothing, per the counterexample). -/
theorem C6_single_attribute_sensitivity :
    (∀ (repo1 repo2 : Repo) (id1 id2 : Nat) (t1 t2 : TypeNode),
      repo1.find id1 = some t1 → repo2.find id2 = some t2 →
      t1.name ≠ t2.name →
      TypeIsEqual repo1 repo2 id1 id2 = false ∧
        TypeHash repo1 id1 ≠ TypeHash repo2 id2) ∧
    (∀ (repo1 repo2 : Repo) (id1 id2 : Nat) (t1 t2 : TypeNode),
      repo1.find id1 = some t1 → repo2.find id2 = some t2 →
      t1.size ≠ t2.size →
      TypeIsEqual repo1 repo2 id1 id2 = false ∧
        TypeHash repo1 id1 ≠ TypeHash repo2 id2) ∧
    (∀ (repo1 repo2 : Repo) (id1 id2 : Nat) (n : String) (s bl1 bl2 bo : Nat),
      repo1.find id1 = some (.bitfield n s bl1 bo) →
      repo2.find id2 = some (.bitfield n s bl2 bo) → bl1 ≠ bl2 →
      TypeIsEqual repo1 repo2 id1 id2 = false ∧
        TypeHash repo1 id1 ≠ TypeHash repo2 id2) ∧
    (∀ (repo1 repo2 : Repo) (id1 id2 : Nat) (n : String) (s bl bo1 bo2 : Nat),
      repo1.find id1 = some (.bitfield n s bl bo1) →
      repo2.find id2 = some (.bitfield n s bl bo2) → bo1 ≠ bo2 →
      TypeIsEqual repo1 repo2 id1 id2 = false ∧
        TypeHash repo1 id1 ≠ TypeHash repo2 id2) ∧
    (∀ (repo1 repo2 : Repo) (id1 id2 : Nat) (n : String) (s : Nat)
      (fs1 fs2 : List Field) (i : Nat) (hi1 : i < fs1.length)
      (hi2 : i < fs2.length),
      repo1.find id1 = some (.userDefined n s fs1) →
      repo2.find id2 = some (.userDefined n s fs2) →
      (fs1.get ⟨i, hi1⟩).offset ≠ (fs2.get ⟨i, hi2⟩).offset →
      TypeIsEqual repo1 repo2 id1 id2 = false ∧
        TypeHash repo1 id1 ≠ TypeHash repo2 id2) ∧
    (∀ (repo1 repo2 : Repo) (id1 id2 : Nat) (n : String) (s : Nat)
      (fs1 fs2 : List Field) (i : Nat) (hi1 : i < fs1.length)
      (hi2 : i < fs2.length),
      repo1.find id1 = some (.userDefined n s fs1) →
      repo2.find id2 = some (.userDefined n s fs2) →
      ((fs1.get ⟨i, hi1⟩).isConst ≠ (fs2.get ⟨i, hi2⟩).isConst ∨
        (fs1.get ⟨i, hi1⟩).isVolatile ≠ (fs2.get ⟨i, hi2⟩).isVolatile) →
      TypeIsEqual repo1 repo2 id1 id2 = false ∧
        TypeHash repo1 id1 ≠ TypeHash repo2 id2) ∧
    (∀ (repo1 repo2 : Repo) (rank1 rank2 : Nat → Nat) (id1 id2 : Nat)
      (n : String) (s : Nat) (c v : Bool) (p1 p2 : Nat),
      Ranked repo1 rank1 → Ranked repo2 rank2 →
      repo1.find id1 = some (.pointer n s c v p1) →
      repo2.find id2 = some (.pointer n s c v p2) →
      TypeHash repo1 p1 ≠ TypeHash repo2 p2 →
      TypeIsEqual repo1 repo2 id1 id2 = false ∧
        TypeHash repo1 id1 ≠ TypeHash repo2 id2) ∧
    (∀ (repo1 repo2 : Repo) (rank1 rank2 : Nat → Nat) (id1 id2 : Nat)
      (n : String) (s : Nat) (fs1 fs2 : List Field) (i : Nat)
      (hi1 : i < fs1.length) (hi2 : i < fs2.length),
      Ranked repo1 rank1 → Ranked repo2 rank2 →
      repo1.find id1 = some (.userDefined n s fs1) →
      repo2.find id2 = some (.userDefined n s fs2) →
      TypeHash repo1 ((fs1.get ⟨i, hi1⟩).typeId) ≠
        TypeHash repo2 ((fs2.get ⟨i, hi2⟩).typeId) →
      TypeIsEqual repo1 repo2 id1 id2 = false ∧
        TypeHash repo1 id1 ≠ TypeHash repo2 id2) := by
  refine ⟨?_, ?_, ?_, ?_, ?_, ?_, ?_, ?_⟩
  · intro repo1 repo2 id1 id2 t1 t2 h1 h2 hne
    have hhash : TypeHash repo1 id1 ≠ TypeHash repo2 id2 := by
      intro hc
      rw [TypeHash_unfold h1, TypeHash_unfold h2, Nat.pair_eq_pair] at hc
      exact hne (headerCode_eq_iff.mp hc.1).2.1
    refine ⟨?_, hhash⟩
    by_contra hcq
    rw [Bool.not_eq_false, TypeIsEqual_unfold h1 h2] at hcq
    exact hne (eqKindFields_eq_true_iff.mp hcq).2.1
  · intro repo1 repo2 id1 id2 t1 t2 h1 h2 hne
    have hhash : TypeHash repo1 id1 ≠ TypeHash repo2 id2 := by
      intro hc
      rw [TypeHash_unfold h1, TypeHash_unfold h2, Nat.pair_eq_pair] at hc
      exact hne (headerCode_eq_iff.mp hc.1).2.2
    refine ⟨?_, hhash⟩
    by_contra hcq
    rw [Bool.not_eq_false, TypeIsEqual_unfold h1 h2] at hcq
    exact hne (eqKindFields_eq_true_iff.mp hcq).2.2.1
  · intro repo1 repo2 id1 id2 n s bl1 bl2 bo h1 h2 hne
    have hhash : TypeHash repo1 id1 ≠ TypeHash repo2 id2 := by
      intro hc
      rw [TypeHash_unfold h1, TypeHash_unfold h2, Nat.pair_eq_pair] at hc
      obtain ⟨_, hs⟩ := hc
      simp only [hashKindCode, Nat.pair_eq_pair] at hs
      exact hne hs.1
    refine ⟨?_, hhash⟩
    by_contra hcq
    rw [Bool.not_eq_false, TypeIsEqual_unfold h1 h2] at hcq
    obtain ⟨_, _, _, hm⟩ := eqKindFields_eq_true_iff.mp hcq
    simp only [specKindFieldsMatch] at hm
    exact hne hm.1
  · intro repo1 repo2 id1 id2 n s bl bo1 bo2 h1 h2 hne
    have hhash : TypeHash repo1 id1 ≠ TypeHash repo2 id2 := by
      intro hc
      rw [TypeHash_unfold h1, TypeHash_unfold h2, Nat.pair_eq_pair] at hc
      obtain ⟨_, hs⟩ := hc
      simp only [hashKindCode, Nat.pair_eq_pair] at hs
      exact hne hs.2
    refine ⟨?_, hhash⟩
    by_contra hcq
    rw [Bool.not_eq_false, TypeIsEqual_unfold h1 h2] at hcq
    obtain ⟨_, _, _, hm⟩ := eqKindFields_eq_true_iff.mp hcq
    simp only [specKindFieldsMatch] at hm
    exact hne hm.2
  · intro repo1 repo2 id1 id2 n s fs1 fs2 i hi1 hi2 h1 h2 hne
    rw [List.get_eq_getElem, List.get_eq_getElem] at hne
    have hhash : TypeHash repo1 id1 ≠ TypeHash repo2 id2 := by
      intro hc
      rw [TypeHash_unfold h1, TypeHash_unfold h2, Nat.pair_eq_pair] at hc
      obtain ⟨_, hs⟩ := hc
      simp only [hashKindCode] at hs
      have hlists := natListCode_injective hs
      have hi1m : i < (List.map (fun f => fieldCode f
          (typeHashAux repo1 repo1.length (repo1.keys.erase id1) f.typeId))
          fs1).length := by
        rw [List.length_map]
        exact hi1
      have hgel := List.getElem_of_eq hlists hi1m
      rw [List.getElem_map, List.getElem_map] at hgel
      exact hne (fieldCode_eq_iff.mp hgel).2.1
    refine ⟨?_, hhash⟩
    by_contra hcq
    rw [Bool.not_eq_false, TypeIsEqual_unfold h1 h2] at hcq
    obtain ⟨_, _, _, hm⟩ := eqKindFields_eq_true_iff.mp hcq
    simp only [specKindFieldsMatch] at hm
    obtain ⟨hlen, hall⟩ := hm
    have hzi : i < (fs1.zip fs2).length := by
      rw [List.length_zip]
      exact Nat.lt_min.mpr ⟨hi1, hi2⟩
    have hpi := hall ((fs1.zip fs2)[i]) (List.getElem_mem hzi)
    rw [List.getElem_zip] at hpi
    exact hne hpi.2.1
  · intro repo1 repo2 id1 id2 n s fs1 fs2 i hi1 hi2 h1 h2 hne
    simp only [List.get_eq_getElem] at hne
    have hhash : TypeHash repo1 id1 ≠ TypeHash repo2 id2 := by
      intro hc
      rw [TypeHash_unfold h1, TypeHash_unfold h2, Nat.pair_eq_pair] at hc
      obtain ⟨_, hs⟩ := hc
      simp only [hashKindCode] at hs
      have hlists := natListCode_injective hs
      have hi1m : i < (List.map (fun f => fieldCode f
          (typeHashAux repo1 repo1.length (repo1.keys.erase id1) f.typeId))
          fs1).length := by
        rw [List.length_map]
        exact hi1
      have hgel := List.getElem_of_eq hlists hi1m
      rw [List.getElem_map, List.getElem_map] at hgel
      have hcomp := fieldCode_eq_iff.mp hgel
      rcases hne with hne | hne
      · exact hne hcomp.2.2.1
      · exact hne hcomp.2.2.2.1
    refine ⟨?_, hhash⟩
    by_contra hcq
    rw [Bool.not_eq_false, TypeIsEqual_unfold h1 h2] at hcq
    obtain ⟨_, _, _, hm⟩ := eqKindFields_eq_true_iff.mp hcq
    simp only [specKindFieldsMatch] at hm
    obtain ⟨hlen, hall⟩ := hm
    have hzi : i < (fs1.zip fs2).length := by
      rw [List.length_zip]
      exact Nat.lt_min.mpr ⟨hi1, hi2⟩
    have hpi := hall ((fs1.zip fs2)[i]) (List.getElem_mem hzi)
    rw [List.getElem_zip] at hpi
    rcases hne with hne | hne
    · exact hne hpi.2.2.1
    · exact hne hpi.2.2.2.1
  · intro repo1 repo2 rank1 rank2 id1 id2 n s c v p1 p2 hrk1 hrk2 h1 h2 hne
    have hhash : TypeHash repo1 id1 ≠ TypeHash repo2 id2 := by
      intro hc
      rw [TypeHash_unfold h1, TypeHash_unfold h2, Nat.pair_eq_pair] at hc
      obtain ⟨_, hs⟩ := hc
      simp only [hashKindCode, Nat.pair_eq_pair] at hs
      have hsub1 := subHash_eq_TypeHash hrk1 h1
        (show p1 ∈ refIds (.pointer n s c v p1) by simp [refIds])
      have hsub2 := subHash_eq_TypeHash hrk2 h2
        (show p2 ∈ refIds (.pointer n s c v p2) by simp [refIds])
      rw [hsub1, hsub2] at hs
      exact hne hs.2
    refine ⟨?_, hhash⟩
    by_contra hcq
    rw [Bool.not_eq_false] at hcq
    exact hhash (TypeHash_eq_of_TypeIsEqual hrk1 hrk2 hcq)
  · intro repo1 repo2 rank1 rank2 id1 id2 n s fs1 fs2 i hi1 hi2 hrk1 hrk2
      h1 h2 hne
    rw [List.get_eq_getElem, List.get_eq_getElem] at hne
    have hhash : TypeHash repo1 id1 ≠ TypeHash repo2 id2 := by
      intro hc
      rw [TypeHash_unfold h1, TypeHash_unfold h2, Nat.pair_eq_pair] at hc
      obtain ⟨_, hs⟩ := hc
      simp only [hashKindCode] at hs
      have hlists := natListCode_injective hs
      have hi1m : i < (List.map (fun f => fieldCode f
          (typeHashAux repo1 repo1.length (repo1.keys.erase id1) f.typeId))
          fs1).length := by
        rw [List.length_map]
        exact hi1
      have hgel := List.getElem_of_eq hlists hi1m
      rw [List.getElem_map, List.getElem_map] at hgel
      have hcomp := (fieldCode_eq_iff.mp hgel).2.2.2.2
      have hsub1 := subHash_eq_TypeHash hrk1 h1
        (show (fs1[i]).typeId ∈ refIds (.userDefined n s fs1) by
          simp only [refIds]
          exact List.mem_map.mpr ⟨fs1[i], List.getElem_mem hi1, rfl⟩)
      have hsub2 := subHash_eq_TypeHash hrk2 h2
        (show (fs2[i]).typeId ∈ refIds (.userDefined n s fs2) by
          simp only [refIds]
          exact List.mem_map.mpr ⟨fs2[i], List.getElem_mem hi2, rfl⟩)
      rw [hsub1, hsub2] at hcomp
      exact hne hcomp
    refine ⟨?_, hhash⟩
    by_contra hcq
    rw [Bool.not_eq_false] at hcq
    exact hhash (TypeHash_eq_of_TypeIsEqual hrk1 hrk2 hcq)

/-- C6 witness: one concrete instance per amended sensitivity clause,
mirroring the unit test's variations. -/
theorem C6_witness :
    (TypeIsEqual [(0, .basic "basic" 4)] [(0, .basic "fasic" 4)] 0 0
        = false ∧
      TypeHash [(0, .basic "basic" 4)] 0 ≠
        TypeHash [(0, .basic "fasic" 4)] 0) ∧
    (TypeIsEqual [(0, .basic "basic" 4)] [(0, .basic "basic" 3)] 0 0
        = false ∧
      TypeHash [(0, .basic "basic" 4)] 0 ≠
        TypeHash [(0, .basic "basic" 3)] 0) ∧
    (TypeIsEqual [(0, .bitfield "bf" 4 1 3)] [(0, .bitfield "bf" 4 2 3)] 0 0
        = false ∧
      TypeHash [(0, .bitfield "bf" 4 1 3)] 0 ≠
        TypeHash [(0, .bitfield "bf" 4 2 3)] 0) ∧
    (TypeIsEqual [(0, .bitfield "bf" 4 1 3)] [(0, .bitfield "bf" 4 1 4)] 0 0
        = false ∧
      TypeHash [(0, .bitfield "bf" 4 1 3)] 0 ≠
        TypeHash [(0, .bitfield "bf" 4 1 4)] 0) ∧
    (TypeIsEqual
        [(1, .userDefined "one" 4 [⟨"one", 0, false, false, 0⟩]),
          (0, .basic "onetype" 4)]
        [(1, .userDefined "one" 4 [⟨"one", 1, false, false, 0⟩]),
          (0, .basic "onetype" 4)] 1 1 = false ∧
      TypeHash [(1, .userDefined "one" 4 [⟨"one", 0, false, false, 0⟩]),
          (0, .basic "onetype" 4)] 1 ≠
        TypeHash [(1, .userDefined "one" 4 [⟨"one", 1, false, false, 0⟩]),
          (0, .basic "onetype" 4)] 1) ∧
    (TypeIsEqual
        [(1, .userDefined "one" 4 [⟨"one", 0, false, false, 0⟩]),
          (0, .basic "onetype" 4)]
        [(1, .userDefined "one" 4 [⟨"one", 0, true, false, 0⟩]),
          (0, .basic "onetype" 4)] 1 1 = false ∧
      TypeHash [(1, .userDefined "one" 4 [⟨"one", 0, false, false, 0⟩]),
          (0, .basic "onetype" 4)] 1 ≠
        TypeHash [(1, .userDefined "one" 4 [⟨"one", 0, true, false, 0⟩]),
          (0, .basic "onetype" 4)] 1) ∧
    (TypeIsEqual
        [(1, .pointer "pointer" 4 false false 0), (0, .basic "ptrtype" 0)]
        [(1, .pointer "pointer" 4 false false 0), (0, .basic "qtrtype" 0)]
        1 1 = false ∧
      TypeHash [(1, .pointer "pointer" 4 false false 0),
          (0, .basic "ptrtype" 0)] 1 ≠
        TypeHash [(1, .pointer "pointer" 4 false false 0),
          (0, .basic "qtrtype" 0)] 1) ∧
    (TypeIsEqual
        [(1, .userDefined "one" 4 [⟨"one", 0, false, false, 0⟩]),
          (0, .basic "onetype" 4)]
        [(1, .userDefined "one" 4 [⟨"one", 0, false, false, 0⟩]),
          (0, .basic "twotype" 4)] 1 1 = false ∧
      TypeHash [(1, .userDefined "one" 4 [⟨"one", 0, false, false, 0⟩]),
          (0, .basic "onetype" 4)] 1 ≠
        TypeHash [(1, .userDefined "one" 4 [⟨"one", 0, false, false, 0⟩]),
          (0, .basic "twotype" 4)] 1) :=
  ⟨C6_single_attribute_sensitivity.1 _ _ 0 0 (.basic "basic" 4)
      (.basic "fasic" 4) (by decide) (by decide) (by decide),
    C6_single_attribute_sensitivity.2.1 _ _ 0 0 (.basic "basic" 4)
      (.basic "basic" 3) (by decide) (by decide) (by decide),
    C6_single_attribute_sensitivity.2.2.1 _ _ 0 0 "bf" 4 1 2 3 (by decide)
      (by decide) (by decide),
    C6_single_attribute_sensitivity.2.2.2.1 _ _ 0 0 "bf" 4 1 3 4 (by decide)
      (by decide) (by decide),
    C6_single_attribute_sensitivity.2.2.2.2.1 _ _ 1 1 "one" 4
      [⟨"one", 0, false, false, 0⟩] [⟨"one", 1, false, false, 0⟩] 0
      (by decide) (by decide) (by decide) (by decide) (by decide),
    C6_single_attribute_sensitivity.2.2.2.2.2.1 _ _ 1 1 "one" 4
      [⟨"one", 0, false, false, 0⟩] [⟨"one", 0, true, false, 0⟩] 0
      (by decide) (by decide) (by decide) (by decide) (by decide),
    C6_single_attribute_sensitivity.2.2.2.2.2.2.1 _ _ (fun n => n)
      (fun n => n) 1 1 "pointer" 4 false false 0 0
      (by unfold Ranked; decide) (by unfold Ranked; decide) (by decide)
      (by decide) (by decide),
    C6_single_attribute_sensitivity.2.2.2.2.2.2.2 _ _ (fun n => n)
      (fun n => n) 1 1 "one" 4 [⟨"one", 0, false, false, 0⟩]
      [⟨"one", 0, false, false, 0⟩] 0 (by decide) (by decide)
      (by unfold Ranked; decide) (by unfold Ranked; decide) (by decide)
      (by decide) (by decide)⟩

end Refinery
